import Mathlib

/-!
Verification development for the API-VaultGuard repository.

The development shallowly embeds the vault core of the repository:
`src/lib/crypto.ts` (key derivation, AES-GCM envelope encrypt/decrypt,
base64 transport), `src/lib/storage.ts` (persisted vault load/save/
import/export/clear over `localStorage`), the unlock state machine of
`pages/Index.tsx` (`handleAuth`, `handleLock`), the password-strength
check and submit gating of `AuthScreen.tsx`, and the import merge of
`SecureVault.tsx` (`handleImportVault`).

Platform primitives that the source calls but that have no source in the
repository (WebCrypto PBKDF2/AES-GCM, `TextEncoder`/`TextDecoder`,
`btoa`/`atob`, `JSON.stringify`/`JSON.parse`) are modelled explicitly:
base64 is implemented exactly (RFC 4648), text encoding is an injective
fixed-width byte encoding of unicode scalars, AES-GCM is the standard
symbolic model of an authenticated cipher (decryption succeeds exactly
for the key and nonce that produced the ciphertext, and returns the
original plaintext), and JSON serialization is an injective printer with
a total parser on its range.  Machine integers do not occur: all byte
values are `Nat` with explicit `< 256` bounds.
-/

namespace VaultGuard

/-! ## Base64 (model of the platform `btoa` / `atob`) -/

/-- The base64 alphabet. -/
def b64Alphabet : List Char :=
  "ABCDEFGHIJKLMNOPQRSTUVWXYZabcdefghijklmnopqrstuvwxyz0123456789+/".toList

/-- The character for a base64 digit (defined for values `< 64`). -/
def b64EncChar (n : Nat) : Char := b64Alphabet.getD n 'A'

/-- Inverse alphabet lookup; `none` for characters outside the alphabet. -/
def b64DecChar (c : Char) : Option Nat := b64Alphabet.indexOf? c

/-- Decode one final base64 quantum, where `'='` padding may occur. -/
def b64DecGroupLast (c1 c2 c3 c4 : Char) : Option (List Nat) :=
  match b64DecChar c1, b64DecChar c2 with
  | some n1, some n2 =>
    if c3 = '=' then
      if c4 = '=' then some [n1 * 4 + n2 / 16] else none
    else
      match b64DecChar c3 with
      | some n3 =>
        if c4 = '=' then some [n1 * 4 + n2 / 16, n2 % 16 * 16 + n3 / 4]
        else
          match b64DecChar c4 with
          | some n4 => some [n1 * 4 + n2 / 16, n2 % 16 * 16 + n3 / 4, n3 % 4 * 64 + n4]
          | none => none
      | none => none
  | _, _ => none

/-- Decode a base64 character stream: groups of four characters, with
padding permitted only in the final group. -/
def b64decodeChars : List Char → Option (List Nat)
  | [] => some []
  | c1 :: c2 :: c3 :: c4 :: rest =>
    if rest.isEmpty then b64DecGroupLast c1 c2 c3 c4
    else
      match b64DecChar c1, b64DecChar c2, b64DecChar c3, b64DecChar c4 with
      | some n1, some n2, some n3, some n4 =>
        match b64decodeChars rest with
        | some tail =>
            some ((n1 * 4 + n2 / 16) :: (n2 % 16 * 16 + n3 / 4) :: (n3 % 4 * 64 + n4) :: tail)
        | none => none
      | _, _, _, _ => none
  | _ => none

/-- Base64-encode a byte list (three bytes per quantum, `'='` padding). -/
def b64encodeBytes : List Nat → List Char
  | [] => []
  | [a] => [b64EncChar (a / 4), b64EncChar (a % 4 * 16), '=', '=']
  | [a, b] =>
      [b64EncChar (a / 4), b64EncChar (a % 4 * 16 + b / 16), b64EncChar (b % 16 * 4), '=']
  | a :: b :: c :: rest =>
      b64EncChar (a / 4) :: b64EncChar (a % 4 * 16 + b / 16) ::
        b64EncChar (b % 16 * 4 + c / 64) :: b64EncChar (c % 64) :: b64encodeBytes rest

/-- Model of `btoa` on a byte buffer (the source always passes bytes `< 256`,
obtained from a `Uint8Array`). -/
def btoa (bs : List Nat) : String := ⟨b64encodeBytes bs⟩

/-- Model of `atob`; `none` models the `InvalidCharacterError` exception. -/
def atob (s : String) : Option (List Nat) := b64decodeChars s.data

/-! ## Text encoding (model of `TextEncoder` / `TextDecoder`)

The source encodes strings to byte buffers with the platform text encoder
before encryption and decodes after decryption.  The claims need only that
the encoding is injective with a total decoder on its range, so the model
uses a fixed-width (three bytes per unicode scalar, big-endian base 256)
encoding instead of UTF-8's variable width. -/

/-- Byte encoding of one unicode scalar value. -/
def encodeChar (c : Char) : List Nat :=
  [c.toNat / 65536, c.toNat / 256 % 256, c.toNat % 256]

/-- The Unicode replacement character `TextDecoder.decode` substitutes for
ill-formed input (the platform decoder never throws). -/
def replacementChar : Char := '�'

/-- Decode a byte list; on the range of `encodeChar` concatenations this
inverts the encoding, and like the platform `TextDecoder` it is total,
mapping ill-formed input to the replacement character. -/
def decodeChars : List Nat → List Char
  | [] => []
  | b0 :: b1 :: b2 :: rest =>
    if _h : (b0 * 65536 + b1 * 256 + b2).isValidChar then
      Char.ofNat (b0 * 65536 + b1 * 256 + b2) :: decodeChars rest
    else replacementChar :: decodeChars rest
  | _ => [replacementChar]

/-- Model of `TextEncoder.encode`. -/
def textEncode (s : String) : List Nat := s.data.flatMap encodeChar

/-- Model of `TextDecoder.decode`: total, like the platform decoder. -/
def textDecode (bs : List Nat) : String := ⟨decodeChars bs⟩

/-! ## Self-delimiting byte framing (used by the symbolic cipher model) -/

/-- Little-endian base-255 digits of a natural number (digits `< 255`). -/
def natToB255 : Nat → List Nat
  | 0 => []
  | n+1 => ((n+1) % 255) :: natToB255 ((n+1) / 255)
decreasing_by exact Nat.div_lt_self (Nat.succ_pos n) (by omega)

/-- Read a `255`-terminated base-255 number from a byte stream, returning
the value and the remaining stream. -/
def decB255 : List Nat → Option (Nat × List Nat)
  | [] => none
  | b :: rest =>
    if b = 255 then some (0, rest)
    else
      match decB255 rest with
      | some (n, rest') => some (b + 255 * n, rest')
      | none => none

/-- Self-delimiting encoding of a natural number: base-255 digits followed
by the terminator byte `255`. -/
def encNat (n : Nat) : List Nat := natToB255 n ++ [255]

/-- Length-prefix framing of a byte list. -/
def frame (l : List Nat) : List Nat := encNat l.length ++ l

/-- Read one frame from a byte stream. -/
def unframe (bs : List Nat) : Option (List Nat × List Nat) :=
  match decB255 bs with
  | some (n, rest) =>
    if n ≤ rest.length then some (rest.take n, rest.drop n) else none
  | none => none

/-! ## Symbolic cipher (model of WebCrypto PBKDF2 + AES-256-GCM)

`deriveKey` in the source is PBKDF2(SHA-256, 100000 iterations) applied to
the password and salt: a deterministic function of exactly those two
inputs.  The model keeps the pair itself as the key.  AES-GCM is modelled
as an ideal authenticated cipher: the ciphertext determines the key and
nonce that produced it, decryption succeeds exactly when the supplied key
and nonce match and then returns the original plaintext, and fails
otherwise (authentication failure). -/

/-- A derived symmetric key (model of the opaque `CryptoKey`). -/
structure DerivedKey where
  password : List Nat
  salt : List Nat
deriving DecidableEq

/-- Model of `deriveKey` (crypto.ts): deterministic in password and salt. -/
def deriveKey (password : String) (salt : List Nat) : DerivedKey :=
  ⟨textEncode password, salt⟩

/-- Byte serialization of a derived key, embedded in symbolic ciphertexts. -/
def keyBytes (k : DerivedKey) : List Nat := frame k.password ++ frame k.salt

/-- Symbolic GCM authentication tag: binds the key, the nonce and the
plaintext, so any change to the ciphertext breaks the tag check below. -/
def gcmTag (key : DerivedKey) (iv pt : List Nat) : List Nat :=
  keyBytes key ++ iv ++ pt

/-- Symbolic AES-GCM encryption: the ciphertext carries the key and nonce
frames, the framed plaintext, and the authentication tag. -/
def aesGcmEncrypt (key : DerivedKey) (iv : List Nat) (pt : List Nat) : List Nat :=
  frame (keyBytes key) ++ frame iv ++ frame pt ++ gcmTag key iv pt

/-- Symbolic AES-GCM decryption with authentication: parse the candidate
plaintext and accept exactly when the whole ciphertext is the honest
encryption of that plaintext under the supplied key and nonce — the
re-encryption equality models GCM's tag verification, so a ciphertext that
differs anywhere from an honest encryption is rejected. -/
def aesGcmDecrypt (key : DerivedKey) (iv : List Nat) (ct : List Nat) : Option (List Nat) :=
  match unframe ct with
  | some (_, rest) =>
    match unframe rest with
    | some (_, rest') =>
      match unframe rest' with
      | some (pt, _) => if ct = aesGcmEncrypt key iv pt then some pt else none
      | none => none
    | none => none
  | none => none

/-- The ciphertext envelope produced by `encryptData` (crypto.ts
`EncryptedData`): base64-encoded ciphertext, salt and iv. -/
structure EncryptedData where
  data : String
  salt : String
  iv : String
deriving DecidableEq

/-- The exceptions `decryptData` can raise: `invalidCharacter` models the
`InvalidCharacterError` thrown by `atob` on a malformed base64 field, and
`operationError` models the `OperationError` rejection of
`crypto.subtle.decrypt` on authentication failure (wrong key or tampered
ciphertext). -/
inductive CryptoError where
  | invalidCharacter
  | operationError
deriving DecidableEq

/-- Model of `encryptData` (crypto.ts).  The source draws a fresh random
16-byte salt and 12-byte iv from `crypto.getRandomValues`; the model takes
them as parameters. -/
def encryptData (data password : String) (salt iv : List Nat) : EncryptedData :=
  let key := deriveKey password salt
  let ct := aesGcmEncrypt key iv (textEncode data)
  { data := btoa ct, salt := btoa salt, iv := btoa iv }

/-- Model of `decryptData` (crypto.ts): base64-decode salt, iv and data
(`atob`, throwing `InvalidCharacterError` on malformed input), re-derive
the key from the stored salt and the supplied password,
authenticated-decrypt (`crypto.subtle.decrypt`, rejecting with
`OperationError` on authentication failure), and decode the plaintext
bytes (`TextDecoder.decode`, which never throws). -/
def decryptData (enc : EncryptedData) (password : String) : Except CryptoError String :=
  match atob enc.salt with
  | none => .error .invalidCharacter
  | some salt =>
    match atob enc.iv with
    | none => .error .invalidCharacter
    | some iv =>
      match atob enc.data with
      | none => .error .invalidCharacter
      | some ct =>
        match aesGcmDecrypt (deriveKey password salt) iv ct with
        | none => .error .operationError
        | some pt => .ok (textDecode pt)

/-! ## JSON values (model of `JSON.stringify` / `JSON.parse`)

The storage layer serializes the vault with the platform JSON functions.
The claims depend only on `JSON.parse ∘ JSON.stringify = id` on the values
the source produces, so the model uses an injective serialization of JSON
values with a total parser on its range, rather than JSON surface syntax.
Numbers are modelled as integers: every numeric field of the vault data is
an integer. -/

inductive Json where
  | null
  | bool (b : Bool)
  | num (n : Int)
  | str (s : String)
  | arr (elems : List Json)
  | obj (fields : List (String × Json))

/-- Decimal digit character. -/
def digitChar (d : Nat) : Char := "0123456789".toList.getD d '0'

/-- Little-endian decimal digit characters of a positive number. -/
def natToDecRev : Nat → List Char
  | 0 => []
  | n+1 => digitChar ((n+1) % 10) :: natToDecRev ((n+1) / 10)
decreasing_by exact Nat.div_lt_self (Nat.succ_pos n) (by omega)

/-- Decimal digit characters of a natural number, most significant first. -/
def natToDec (n : Nat) : List Char :=
  if n = 0 then ['0'] else (natToDecRev n).reverse

/-- Decimal digits of an integer, with a leading `'-'` when negative. -/
def intToDec (i : Int) : List Char :=
  if i < 0 then '-' :: natToDec i.natAbs else natToDec i.natAbs

/-- Greedily read a decimal number from a character stream. -/
def parseNat (cs : List Char) : Option (Nat × List Char) :=
  let ds := cs.takeWhile Char.isDigit
  if ds.isEmpty then none
  else some (ds.foldl (fun acc c => acc * 10 + (c.toNat - 48)) 0, cs.dropWhile Char.isDigit)

/-- Read a `<decimal length>:` header. -/
def parseLen (cs : List Char) : Option (Nat × List Char) :=
  match parseNat cs with
  | some (len, rest) =>
    match rest with
    | ':' :: rest' => some (len, rest')
    | _ => none
  | none => none

/-- Read a length-prefixed string payload. -/
def parseStrPayload (cs : List Char) : Option (String × List Char) :=
  match parseLen cs with
  | some (len, rest) =>
    if len ≤ rest.length then some (⟨rest.take len⟩, rest.drop len) else none
  | none => none

/-- Read a `;`-terminated signed decimal payload. -/
def parseIntPayload (cs : List Char) : Option (Int × List Char) :=
  match cs with
  | [] => none
  | c :: cs' =>
    if c = '-' then
      match parseNat cs' with
      | some (n, rest) =>
        match rest with
        | ';' :: rest' => some (-(n : Int), rest')
        | _ => none
      | none => none
    else
      match parseNat (c :: cs') with
      | some (n, rest) =>
        match rest with
        | ';' :: rest' => some ((n : Int), rest')
        | _ => none
      | none => none

mutual

/-- Serialize a JSON value (model of `JSON.stringify`; an injective
serialization whose surface syntax is irrelevant to the claims). -/
def encJson : Json → List Char
  | .null => ['n']
  | .bool true => ['t']
  | .bool false => ['f']
  | .num i => 'i' :: (intToDec i ++ [';'])
  | .str s => 's' :: (natToDec s.data.length ++ ':' :: s.data)
  | .arr xs => 'a' :: (natToDec xs.length ++ ':' :: encJsonList xs)
  | .obj fs => 'o' :: (natToDec fs.length ++ ':' :: encJsonFields fs)

/-- Serialize the elements of a JSON array. -/
def encJsonList : List Json → List Char
  | [] => []
  | x :: xs => encJson x ++ encJsonList xs

/-- Serialize the fields of a JSON object. -/
def encJsonFields : List (String × Json) → List Char
  | [] => []
  | (k, v) :: fs =>
      ('k' :: (natToDec k.data.length ++ ':' :: k.data)) ++ encJson v ++ encJsonFields fs

end

mutual

/-- Fuel-indexed parser for serialized JSON values. -/
def parseJson : Nat → List Char → Option (Json × List Char)
  | 0, _ => none
  | _+1, [] => none
  | f+1, c :: cs =>
    if c = 'n' then some (.null, cs)
    else if c = 't' then some (.bool true, cs)
    else if c = 'f' then some (.bool false, cs)
    else if c = 'i' then
      match parseIntPayload cs with
      | some (i, rest) => some (.num i, rest)
      | none => none
    else if c = 's' then
      match parseStrPayload cs with
      | some (s, rest) => some (.str s, rest)
      | none => none
    else if c = 'a' then
      match parseLen cs with
      | some (len, rest) =>
        match parseJsonList f len rest with
        | some (xs, rest') => some (.arr xs, rest')
        | none => none
      | none => none
    else if c = 'o' then
      match parseLen cs with
      | some (len, rest) =>
        match parseJsonFields f len rest with
        | some (fs, rest') => some (.obj fs, rest')
        | none => none
      | none => none
    else none
termination_by f _ => (f, 0)

/-- Parse `count` serialized JSON values in sequence. -/
def parseJsonList : Nat → Nat → List Char → Option (List Json × List Char)
  | _, 0, cs => some ([], cs)
  | f, count+1, cs =>
    match parseJson f cs with
    | some (x, rest) =>
      match parseJsonList f count rest with
      | some (xs, rest') => some (x :: xs, rest')
      | none => none
    | none => none
termination_by f count _ => (f, count + 1)

/-- Parse `count` serialized object fields in sequence. -/
def parseJsonFields : Nat → Nat → List Char → Option (List (String × Json) × List Char)
  | _, 0, cs => some ([], cs)
  | f, count+1, cs =>
    match cs with
    | 'k' :: cs' =>
      match parseStrPayload cs' with
      | some (k, rest) =>
        match parseJson f rest with
        | some (v, rest') =>
          match parseJsonFields f count rest' with
          | some (fs, rest'') => some ((k, v) :: fs, rest'')
          | none => none
        | none => none
      | none => none
    | _ => none
termination_by f count _ => (f, count + 1)

end

mutual

/-- Nesting depth of a JSON value (drives the parser fuel bound). -/
def jsonDepth : Json → Nat
  | .null => 1
  | .bool _ => 1
  | .num _ => 1
  | .str _ => 1
  | .arr xs => jsonDepthList xs + 1
  | .obj fs => jsonDepthFields fs + 1

/-- Maximal nesting depth of the elements of an array. -/
def jsonDepthList : List Json → Nat
  | [] => 0
  | x :: xs => max (jsonDepth x) (jsonDepthList xs)

/-- Maximal nesting depth of the values of an object. -/
def jsonDepthFields : List (String × Json) → Nat
  | [] => 0
  | (_, v) :: fs => max (jsonDepth v) (jsonDepthFields fs)

end

/-- Model of `JSON.stringify`. -/
def jsonStringify (j : Json) : String := ⟨encJson j⟩

/-- Model of `JSON.parse`; `none` models the `SyntaxError` exception. -/
def jsonParse (s : String) : Option Json :=
  match parseJson (s.data.length + 1) s.data with
  | some (j, []) => some j
  | _ => none

/-! ## JavaScript value helpers -/

/-- JS truthiness of a JSON value. -/
def jsTruthy : Json → Bool
  | .null => false
  | .bool b => b
  | .num n => n != 0
  | .str s => s != ""
  | .arr _ => true
  | .obj _ => true

/-- Model of `Array.isArray`. -/
def jsIsArray : Json → Bool
  | .arr _ => true
  | _ => false

/-- Property read `j.k` on a non-null value; `none` is `undefined`.
Objects look the key up; primitives and arrays yield `undefined` for every
key the source reads (none collides with a built-in property whose
truthiness would change a branch: `[].keys` is a built-in function, but it
fails the `Array.isArray` test exactly like `undefined` fails truthiness). -/
def jsMemberOpt (j : Json) (key : String) : Option Json :=
  match j with
  | .obj fields => fields.lookup key
  | _ => none

/-- Property read `j.k` as executed by the source: reading a property of
`null` throws a `TypeError` (the `Except.error`). -/
def jsMember (j : Json) (key : String) : Except Unit (Option Json) :=
  match j with
  | .null => .error ()
  | _ => .ok (jsMemberOpt j key)

/-- JS string coercion `String(v)` for values reaching `atob`'s argument
(arrays are approximated; a coerced array never decodes as base64 of an
honest envelope anyway). -/
def jsToString : Json → String
  | .null => "null"
  | .bool true => "true"
  | .bool false => "false"
  | .num n => toString n
  | .str s => s
  | .arr _ => ""
  | .obj _ => "[object Object]"

/-- Own enumerable properties contributed by `...v` inside an object
literal: objects contribute their fields, strings and arrays contribute
index-keyed entries, everything else (including an absent value)
contributes nothing. -/
def jsSpread : Option Json → List (String × Json)
  | some (.obj fields) => fields
  | some (.str s) =>
      ((List.range s.data.length).zip (s.data.map fun c => Json.str ⟨[c]⟩)).map
        fun p => (toString p.1, p.2)
  | some (.arr xs) =>
      ((List.range xs.length).zip xs).map fun p => (toString p.1, p.2)
  | _ => []

/-- `{...a, ...b}` on field lists: the keys of `a` (values overridden by
`b` where present) followed by the keys of `b` absent from `a`.  JS keeps
`a`'s key order for overridden keys exactly as here; lookups agree. -/
def jsObjMerge (a b : List (String × Json)) : List (String × Json) :=
  (a.map fun p => (p.1, ((b.lookup p.1).getD p.2))) ++
    (b.filter fun p => (a.lookup p.1).isNone)

/-- JS property assignment `o.k = v` on a field list: overwrite in place
when the key exists, append otherwise. -/
def jsSetField (fields : List (String × Json)) (key : String) (v : Json) :
    List (String × Json) :=
  if (fields.lookup key).isSome then
    fields.map fun p => if p.1 = key then (p.1, v) else p
  else fields ++ [(key, v)]

/-! ## Vault data model (storage.ts) -/

/-- `ApiKey` (storage.ts): one stored secret record. -/
structure ApiKey where
  id : String
  name : String
  provider : String
  apiKey : String
  description : Option String
  tags : List String
  expirationDate : Option String
  createdAt : String
  updatedAt : String
  metadata : List (String × String)
deriving DecidableEq

/-- `VaultSettings` (storage.ts). -/
structure VaultSettings where
  clipboardClearTime : Int
  autoLockTime : Int
  darkMode : Bool
  showKeyPreview : Bool
deriving DecidableEq

/-- `VaultData` (storage.ts). -/
structure VaultData where
  keys : List ApiKey
  settings : VaultSettings
  version : Int
deriving DecidableEq

/-- `DEFAULT_SETTINGS` (storage.ts). -/
def DEFAULT_SETTINGS : VaultSettings :=
  { clipboardClearTime := 30, autoLockTime := 15, darkMode := false, showKeyPreview := false }

/-- The `DEFAULT_SETTINGS` literal as a JSON object, fields in declaration
order. -/
def defaultSettingsFields : List (String × Json) :=
  [("clipboardClearTime", .num 30), ("autoLockTime", .num 15),
   ("darkMode", .bool false), ("showKeyPreview", .bool false)]

/-- The empty vault literal that `loadVaultData` returns on first run. -/
def defaultVaultJson : Json :=
  .obj [("keys", .arr []), ("settings", .obj defaultSettingsFields), ("version", .num 1)]

/-! ## Persistent storage (storage.ts over `localStorage`)

The two entries the source uses are `secure_vault_data` (`STORAGE_KEY`)
and `vault_settings` (`SETTINGS_KEY`). -/

/-- The `localStorage` slots the source touches. -/
structure Storage where
  vaultEntry : Option String
  settingsEntry : Option String
deriving DecidableEq

/-- The persisted envelope: `JSON.stringify` of the `EncryptedData`
object. -/
def envelopeJson (e : EncryptedData) : Json :=
  .obj [("data", .str e.data), ("salt", .str e.salt), ("iv", .str e.iv)]

/-- Field reads `encryptedData.data/salt/iv` as performed inside
`decryptData` on a parsed JSON value (the `String(...)` coercion happens
in `atob`); reading a field of `null` throws. -/
def envelopeOfJson (j : Json) : Option EncryptedData :=
  match j with
  | .null => none
  | _ =>
    some { data := ((jsMemberOpt j "data").map jsToString).getD "undefined"
           salt := ((jsMemberOpt j "salt").map jsToString).getD "undefined"
           iv := ((jsMemberOpt j "iv").map jsToString).getD "undefined" }

/-- The user-facing message `loadVaultData` folds every failure into. -/
def loadErrorMsg : String := "Failed to decrypt vault data. Check your master password."

/-- The settings-defaulting step of `loadVaultData`: the source mutates
`data.settings` to `{...DEFAULT_SETTINGS, ...data.settings}`; assigning a
property of a non-object throws (strict-mode TypeError), caught like every
other failure. -/
def loadNormalize (data : Json) : Except String Json :=
  match data with
  | .obj fields =>
      .ok (.obj (jsSetField fields "settings"
        (.obj (jsObjMerge defaultSettingsFields (jsSpread (fields.lookup "settings"))))))
  | _ => .error loadErrorMsg

def loadVaultDataResult (masterPassword : String) (storage : Storage) : Except String Json :=
  match storage.vaultEntry with
  | none => .ok defaultVaultJson
  | some storedData =>
    match jsonParse storedData with
    | none => .error loadErrorMsg
    | some envJ =>
      match envelopeOfJson envJ with
      | none => .error loadErrorMsg
      | some env =>
        match decryptData env masterPassword with
        | .error _ => .error loadErrorMsg
        | .ok decryptedJson =>
          match jsonParse decryptedJson with
          | none => .error loadErrorMsg
          | some data => loadNormalize data

/-- `loadVaultData` (storage.ts); it contains no `setItem`, so the storage
component of the result is the input storage. -/
def loadVaultData (masterPassword : String) (storage : Storage) :
    Except String Json × Storage :=
  (loadVaultDataResult masterPassword storage, storage)

/-- `vaultExists` (storage.ts). -/
def vaultExists (storage : Storage) : Bool := storage.vaultEntry.isSome

/-- `saveVaultData` (storage.ts): serialize, encrypt under a fresh random
salt and iv (parameters here), and overwrite the vault entry. -/
def saveVaultData (data : Json) (masterPassword : String) (salt iv : List Nat)
    (storage : Storage) : Storage :=
  let jsonData := jsonStringify data
  let encrypted := encryptData jsonData masterPassword salt iv
  { storage with vaultEntry := some (jsonStringify (envelopeJson encrypted)) }

/-- `clearVault` (storage.ts): removes both persisted entries. -/
def clearVault (_storage : Storage) : Storage :=
  { vaultEntry := none, settingsEntry := none }

/-- The distinct failure causes of `importVault`.  In the source each is
an exception caught by the surrounding `try` and re-thrown as one `Error`
whose message embeds the cause; the constructors record those causes. -/
inductive ImportError where
  | parseFailed
  | decryptionFailed
  | payloadParseFailed
  | nullPayload
  | invalidBackupFormat
deriving DecidableEq

/-- The validation-and-normalization tail of `importVault` on the decoded
payload: require a truthy array `keys` field (reading `.keys` of a `null`
payload throws a TypeError), default the settings, and default a falsy or
absent `version` to 1 (`importedData.version || 1`). -/
def importNormalize (importedData : Json) : Except ImportError Json :=
  match jsMember importedData "keys" with
  | .error _ => .error .nullPayload
  | .ok none => .error .invalidBackupFormat
  | .ok (some keysJ) =>
    if ¬ jsTruthy keysJ ∨ ¬ jsIsArray keysJ then .error .invalidBackupFormat
    else
      .ok (.obj
        [("keys", keysJ),
         ("settings", .obj (jsObjMerge defaultSettingsFields
            (jsSpread (jsMemberOpt importedData "settings")))),
         ("version",
           match jsMemberOpt importedData "version" with
           | some v => if jsTruthy v then v else .num 1
           | none => .num 1)])

/-- The try-block of `importVault` (storage.ts): parse the backup text,
decrypt, parse the payload, and normalize. -/
def importVaultResult (backupData masterPassword : String) : Except ImportError Json :=
  match jsonParse backupData with
  | none => .error .parseFailed
  | some envJ =>
    match envelopeOfJson envJ with
    | none => .error .decryptionFailed
    | some env =>
      match decryptData env masterPassword with
      | .error _ => .error .decryptionFailed
      | .ok decryptedJson =>
        match jsonParse decryptedJson with
        | none => .error .payloadParseFailed
        | some importedData => importNormalize importedData

/-- `importVault` (storage.ts); it contains no storage access at all, so
the storage component of the result is the input storage. -/
def importVault (backupData masterPassword : String) (storage : Storage) :
    Except ImportError Json × Storage :=
  (importVaultResult backupData masterPassword, storage)

/-- A backup blob of the shape the export path produces: the serialized
envelope of an encryption of a serialized payload. -/
def backupBlob (payload : Json) (password : String) (salt iv : List Nat) : String :=
  jsonStringify (envelopeJson (encryptData (jsonStringify payload) password salt iv))

/-! ## Password strength and submit gating (AuthScreen.tsx) -/

/-- The auth mode of the `AuthScreen` and `Index` components. -/
inductive AuthMode where
  | create
  | unlock
deriving DecidableEq

/-- The symbol class of the strength regex
`/[!@#$%^&*(),.?":\x7b\x7d|<>]/`. -/
def passwordSymbols : List Char := "!@#$%^&*(),.?\":{}|<>".toList

/-- `validatePasswordStrength` (AuthScreen.tsx; `handleAuth` in Index.tsx
contains an identical inline copy): at least 8 characters and one
character of each of the four classes. -/
def validatePasswordStrength (password : String) : Bool :=
  let hasUpperCase := password.data.any fun c => 'A' ≤ c && c ≤ 'Z'
  let hasLowerCase := password.data.any fun c => 'a' ≤ c && c ≤ 'z'
  let hasNumbers := password.data.any fun c => '0' ≤ c && c ≤ '9'
  let hasSymbols := password.data.any fun c => passwordSymbols.contains c
  let isLongEnough := decide (8 ≤ password.length)
  hasUpperCase && hasLowerCase && hasNumbers && hasSymbols && isLongEnough

/-- `handleSubmit` (AuthScreen.tsx): whether the submit reaches `onAuth`.
Create mode requires matching passwords and the strength check; unlock
mode only requires the advisory 8-character minimum. -/
def handleSubmit (mode : AuthMode) (password confirmPassword : String) : Bool :=
  if mode = AuthMode.create ∧ password ≠ confirmPassword then false
  else if mode = AuthMode.create then validatePasswordStrength password
  else if password.length < 8 then false
  else true

/-! ## Unlock state machine (Index.tsx) -/

/-- The React state of the `Index` component that the auth flow reads and
writes. -/
structure IndexState where
  isAuthenticated : Bool
  masterPassword : String
  authMode : AuthMode
  authError : String
  failedAttempts : Nat
deriving DecidableEq

/-- The strength-violation message on the destructive-reset path. -/
def resetStrengthErrorMsg : String :=
  "New vault password must include uppercase letters, lowercase letters, numbers, and symbols (! @ # $ % ^ & * etc.)"

/-- The message after the failure counter reaches 2. -/
def tooManyAttemptsMsg : String :=
  "Too many failed attempts. The next password you enter will create a new vault and erase all existing data."

/-- The message after a failed attempt with `remaining` attempts left. -/
def incorrectPasswordMsg (remaining : Nat) : String :=
  "Incorrect password. " ++ toString remaining ++ " attempt" ++
    (if remaining = 1 then "" else "s") ++ " remaining before data reset."

/-- `handleAuth` (Index.tsx).  Toast notifications are omitted; the
cleared error, the destructive-reset branch, the ordinary unlock attempt
and the create branch are transcribed. -/
def handleAuth (password : String) (st : IndexState) (storage : Storage) :
    IndexState × Storage :=
  let st0 := { st with authError := "" }
  if st0.authMode = AuthMode.unlock then
    if st0.failedAttempts ≥ 2 then
      if validatePasswordStrength password = false then
        ({ st0 with authError := resetStrengthErrorMsg }, storage)
      else
        ({ st0 with
            masterPassword := password
            isAuthenticated := true
            failedAttempts := 0
            authMode := AuthMode.unlock }, clearVault storage)
    else
      match (loadVaultData password storage).1 with
      | .ok _ =>
        ({ st0 with
            masterPassword := password
            isAuthenticated := true
            failedAttempts := 0 }, storage)
      | .error _ =>
        let newFailedAttempts := st0.failedAttempts + 1
        if newFailedAttempts ≥ 2 then
          ({ st0 with
              failedAttempts := newFailedAttempts
              authError := tooManyAttemptsMsg }, storage)
        else
          ({ st0 with
              failedAttempts := newFailedAttempts
              authError := incorrectPasswordMsg (2 - newFailedAttempts) }, storage)
  else
    ({ st0 with
        masterPassword := password
        isAuthenticated := true
        failedAttempts := 0 }, storage)

/-- `handleLock` (Index.tsx): clears authentication, password, error and
failure counter, and puts the prompt in unlock mode. -/
def handleLock (_st : IndexState) : IndexState :=
  { isAuthenticated := false
    masterPassword := ""
    authMode := AuthMode.unlock
    authError := ""
    failedAttempts := 0 }

/-! ## Import merge (SecureVault.tsx) -/

/-- The `setVaultData` update inside `handleImportVault` (SecureVault.tsx):
append exactly the imported records whose name collides with no existing
record's name; the settings spread `{...prev.settings, ...imported.settings}`
replaces every field because both records are complete. -/
def handleImportMerge (prev importedData : VaultData) : VaultData :=
  let existingNames := prev.keys.map fun k => k.name
  let newKeys := importedData.keys.filter fun k => !(existingNames.contains k.name)
  { prev with keys := prev.keys ++ newKeys, settings := importedData.settings }

/-! ## Supporting lemmas -/

theorem b64DecChar_b64EncChar : ∀ n, n < 64 → b64DecChar (b64EncChar n) = some n := by
  decide

theorem b64EncChar_ne_eq : ∀ n, n < 64 → b64EncChar n ≠ '=' := by
  decide

theorem b64encodeBytes_eq_nil : ∀ bs, b64encodeBytes bs = [] ↔ bs = [] := by
  intro bs
  match bs with
  | [] => simp [b64encodeBytes]
  | [a] => simp [b64encodeBytes]
  | [a, b] => simp [b64encodeBytes]
  | a :: b :: c :: rest => simp [b64encodeBytes]

/-- Base64 round-trip: decoding an encoded byte buffer returns the buffer. -/
theorem b64decode_b64encode :
    ∀ bs : List Nat, (∀ b ∈ bs, b < 256) →
      b64decodeChars (b64encodeBytes bs) = some bs := by
  intro bs
  induction bs using b64encodeBytes.induct with
  | case1 =>
    intro _
    simp [b64encodeBytes, b64decodeChars]
  | case2 a =>
    intro h
    have ha : a < 256 := h a (by simp)
    have h1 := b64DecChar_b64EncChar (a / 4) (by omega)
    have h2 := b64DecChar_b64EncChar (a % 4 * 16) (by omega)
    simp [b64encodeBytes, b64decodeChars, b64DecGroupLast, h1, h2]
    omega
  | case3 a b =>
    intro h
    have ha : a < 256 := h a (by simp)
    have hb : b < 256 := h b (by simp)
    have h1 := b64DecChar_b64EncChar (a / 4) (by omega)
    have h2 := b64DecChar_b64EncChar (a % 4 * 16 + b / 16) (by omega)
    have h3 := b64DecChar_b64EncChar (b % 16 * 4) (by omega)
    have hne := b64EncChar_ne_eq (b % 16 * 4) (by omega)
    simp [b64encodeBytes, b64decodeChars, b64DecGroupLast, h1, h2, h3, hne]
    omega
  | case4 a b c rest ih =>
    intro h
    have ha : a < 256 := h a (by simp)
    have hb : b < 256 := h b (by simp)
    have hc : c < 256 := h c (by simp)
    have hrest : ∀ x ∈ rest, x < 256 := fun x hx => h x (by simp [hx])
    have h1 := b64DecChar_b64EncChar (a / 4) (by omega)
    have h2 := b64DecChar_b64EncChar (a % 4 * 16 + b / 16) (by omega)
    have h3 := b64DecChar_b64EncChar (b % 16 * 4 + c / 64) (by omega)
    have h4 := b64DecChar_b64EncChar (c % 64) (by omega)
    have ih' := ih hrest
    by_cases hr : rest = []
    · subst hr
      have hne3 := b64EncChar_ne_eq (b % 16 * 4 + c / 64) (by omega)
      have hne4 := b64EncChar_ne_eq (c % 64) (by omega)
      simp [b64encodeBytes, b64decodeChars, b64DecGroupLast, h1, h2, h3, h4, hne3, hne4]
      omega
    · have hne : (b64encodeBytes rest).isEmpty = false := by
        cases hrest2 : b64encodeBytes rest with
        | nil => exact absurd ((b64encodeBytes_eq_nil rest).mp hrest2) hr
        | cons x xs => rfl
      simp [b64encodeBytes, b64decodeChars, hne, h1, h2, h3, h4, ih']
      omega

theorem char_toNat_lt (c : Char) : c.toNat < 1114112 := by
  show c.val.toNat < 1114112
  rcases c.valid with h | ⟨_, h⟩ <;> omega

theorem encodeChar_lt (c : Char) : ∀ b ∈ encodeChar c, b < 256 := by
  have := char_toNat_lt c
  intro b hb
  simp [encodeChar] at hb
  rcases hb with h | h | h <;> omega

theorem textEncode_lt (s : String) : ∀ b ∈ textEncode s, b < 256 := by
  intro b hb
  rw [textEncode, List.mem_flatMap] at hb
  obtain ⟨c, _, hc⟩ := hb
  exact encodeChar_lt c b hc

theorem decodeChars_encodeChar (c : Char) (rest : List Nat) :
    decodeChars (encodeChar c ++ rest) = c :: decodeChars rest := by
  have hc := char_toNat_lt c
  have hn : c.toNat / 65536 * 65536 + c.toNat / 256 % 256 * 256 + c.toNat % 256 = c.toNat := by
    omega
  show decodeChars (c.toNat / 65536 :: c.toNat / 256 % 256 :: c.toNat % 256 :: rest) = _
  rw [decodeChars, hn]
  rw [dif_pos (show c.toNat.isValidChar from c.valid), Char.ofNat_toNat]

theorem decodeChars_flatMap (cs : List Char) :
    decodeChars (cs.flatMap encodeChar) = cs := by
  induction cs with
  | nil => simp [decodeChars]
  | cons c cs ih => rw [List.flatMap_cons, decodeChars_encodeChar, ih]

/-- Text-encoding round-trip. -/
theorem textDecode_textEncode (s : String) : textDecode (textEncode s) = s := by
  rw [textDecode, textEncode, decodeChars_flatMap]

theorem textEncode_injective {s t : String} (h : textEncode s = textEncode t) : s = t := by
  have hs := textDecode_textEncode s
  have ht := textDecode_textEncode t
  rw [h, ht] at hs
  exact hs.symm

theorem natToB255_lt : ∀ n, ∀ b ∈ natToB255 n, b < 255 := by
  intro n
  induction n using natToB255.induct with
  | case1 => simp [natToB255]
  | case2 n ih =>
    intro b hb
    rw [natToB255] at hb
    rcases List.mem_cons.mp hb with h | h
    · omega
    · exact ih b h

theorem decB255_encNat (n : Nat) (rest : List Nat) :
    decB255 (encNat n ++ rest) = some (n, rest) := by
  rw [encNat]
  induction n using natToB255.induct with
  | case1 => simp [natToB255, decB255]
  | case2 n ih =>
    rw [natToB255]
    show decB255 ((n+1) % 255 :: (natToB255 ((n+1) / 255) ++ [255] ++ rest)) = _
    rw [decB255]
    have hne : ¬ (n+1) % 255 = 255 := by omega
    rw [if_neg hne, ih]
    simp
    omega

theorem encNat_lt (n : Nat) : ∀ b ∈ encNat n, b < 256 := by
  intro b hb
  rw [encNat] at hb
  rcases List.mem_append.mp hb with h | h
  · have := natToB255_lt n b h
    omega
  · simp at h
    omega

theorem unframe_frame (l rest : List Nat) :
    unframe (frame l ++ rest) = some (l, rest) := by
  rw [frame, unframe, List.append_assoc, decB255_encNat]
  show (if l.length ≤ (l ++ rest).length then
      some ((l ++ rest).take l.length, (l ++ rest).drop l.length) else none) = some (l, rest)
  rw [if_pos (by simp), List.take_left, List.drop_left]

theorem frame_lt (l : List Nat) (h : ∀ b ∈ l, b < 256) : ∀ b ∈ frame l, b < 256 := by
  intro b hb
  rcases List.mem_append.mp hb with h' | h'
  · exact encNat_lt _ b h'
  · exact h b h'

theorem atob_btoa (l : List Nat) (h : ∀ b ∈ l, b < 256) : atob (btoa l) = some l :=
  b64decode_b64encode l h

theorem keyBytes_injective : ∀ {k1 k2 : DerivedKey}, keyBytes k1 = keyBytes k2 → k1 = k2 := by
  intro ⟨p1, s1⟩ ⟨p2, s2⟩ h
  rw [keyBytes, keyBytes] at h
  have h1 := unframe_frame p1 (frame s1)
  rw [h, unframe_frame] at h1
  have h1' := Option.some.inj h1
  rw [Prod.mk.injEq] at h1'
  obtain ⟨hp, hs⟩ := h1'
  have h2 := unframe_frame s2 ([] : List Nat)
  rw [hs, unframe_frame] at h2
  have h2' := Option.some.inj h2
  rw [Prod.mk.injEq] at h2'
  rw [DerivedKey.mk.injEq]
  exact ⟨hp.symm, h2'.1⟩

theorem deriveKey_injective_password {w1 w2 : String} {salt : List Nat}
    (h : deriveKey w1 salt = deriveKey w2 salt) : w1 = w2 := by
  rw [deriveKey, deriveKey, DerivedKey.mk.injEq] at h
  exact textEncode_injective h.1

theorem keyBytes_lt (k : DerivedKey) (hp : ∀ b ∈ k.password, b < 256)
    (hs : ∀ b ∈ k.salt, b < 256) : ∀ b ∈ keyBytes k, b < 256 := by
  intro b hb
  rcases List.mem_append.mp hb with h | h
  · exact frame_lt _ hp b h
  · exact frame_lt _ hs b h

theorem gcmTag_lt (key : DerivedKey) (iv pt : List Nat)
    (hk : ∀ b ∈ keyBytes key, b < 256) (hiv : ∀ b ∈ iv, b < 256)
    (hpt : ∀ b ∈ pt, b < 256) : ∀ b ∈ gcmTag key iv pt, b < 256 := by
  intro b hb
  rw [gcmTag] at hb
  rcases List.mem_append.mp hb with h | h
  · rcases List.mem_append.mp h with h' | h'
    · exact hk b h'
    · exact hiv b h'
  · exact hpt b h

theorem aesGcmEncrypt_lt (key : DerivedKey) (iv pt : List Nat)
    (hk : ∀ b ∈ keyBytes key, b < 256) (hiv : ∀ b ∈ iv, b < 256)
    (hpt : ∀ b ∈ pt, b < 256) : ∀ b ∈ aesGcmEncrypt key iv pt, b < 256 := by
  intro b hb
  rw [aesGcmEncrypt] at hb
  rcases List.mem_append.mp hb with h | h
  · rcases List.mem_append.mp h with h' | h'
    · rcases List.mem_append.mp h' with h'' | h''
      · exact frame_lt _ hk b h''
      · exact frame_lt _ hiv b h''
    · exact frame_lt _ hpt b h'
  · exact gcmTag_lt key iv pt hk hiv hpt b h

theorem aesGcmDecrypt_aesGcmEncrypt (key : DerivedKey) (iv pt : List Nat) :
    aesGcmDecrypt key iv (aesGcmEncrypt key iv pt) = some pt := by
  simp [aesGcmEncrypt, aesGcmDecrypt, List.append_assoc, unframe_frame]

/-- A ciphertext accepted by decryption is exactly the honest encryption of
the returned plaintext. -/
theorem aesGcmDecrypt_canonical {key : DerivedKey} {iv ct pt : List Nat}
    (h : aesGcmDecrypt key iv ct = some pt) : ct = aesGcmEncrypt key iv pt := by
  unfold aesGcmDecrypt at h
  repeat' split at h
  any_goals exact Option.noConfusion h
  injection h with h'
  subst h'
  assumption

/-- Two honest encryptions can only coincide under the same key. -/
theorem aesGcmEncrypt_key_inj {k1 k2 : DerivedKey} {iv1 iv2 pt1 pt2 : List Nat}
    (h : aesGcmEncrypt k1 iv1 pt1 = aesGcmEncrypt k2 iv2 pt2) : k1 = k2 := by
  have h1 : unframe (aesGcmEncrypt k1 iv1 pt1) =
      some (keyBytes k1, frame iv1 ++ (frame pt1 ++ gcmTag k1 iv1 pt1)) := by
    rw [aesGcmEncrypt, List.append_assoc, List.append_assoc]
    exact unframe_frame _ _
  have h2 : unframe (aesGcmEncrypt k2 iv2 pt2) =
      some (keyBytes k2, frame iv2 ++ (frame pt2 ++ gcmTag k2 iv2 pt2)) := by
    rw [aesGcmEncrypt, List.append_assoc, List.append_assoc]
    exact unframe_frame _ _
  rw [h, h2] at h1
  have h3 := Option.some.inj h1
  rw [Prod.mk.injEq] at h3
  exact keyBytes_injective h3.1.symm

theorem aesGcmDecrypt_wrong_key (k1 k2 : DerivedKey) (iv pt : List Nat) (h : k1 ≠ k2) :
    aesGcmDecrypt k2 iv (aesGcmEncrypt k1 iv pt) = none := by
  cases hd : aesGcmDecrypt k2 iv (aesGcmEncrypt k1 iv pt) with
  | none => rfl
  | some pt' =>
    exact absurd (aesGcmEncrypt_key_inj (aesGcmDecrypt_canonical hd)) h

/-- The encrypt/decrypt round-trip at the cipher level. -/
theorem decryptData_encryptData (data password : String) (salt iv : List Nat)
    (hsalt : ∀ b ∈ salt, b < 256) (hiv : ∀ b ∈ iv, b < 256) :
    decryptData (encryptData data password salt iv) password = .ok data := by
  have hct : ∀ b ∈ aesGcmEncrypt (deriveKey password salt) iv (textEncode data), b < 256 :=
    aesGcmEncrypt_lt _ _ _
      (keyBytes_lt _ (textEncode_lt password) hsalt) hiv (textEncode_lt data)
  simp only [encryptData, decryptData, atob_btoa _ hsalt, atob_btoa _ hiv, atob_btoa _ hct,
    aesGcmDecrypt_aesGcmEncrypt, textDecode_textEncode]

/-- Decryption with a different password fails. -/
theorem decryptData_encryptData_wrong_password (data w1 w2 : String) (salt iv : List Nat)
    (hne : w1 ≠ w2) (hsalt : ∀ b ∈ salt, b < 256) (hiv : ∀ b ∈ iv, b < 256) :
    decryptData (encryptData data w1 salt iv) w2 = .error .operationError := by
  have hct : ∀ b ∈ aesGcmEncrypt (deriveKey w1 salt) iv (textEncode data), b < 256 :=
    aesGcmEncrypt_lt _ _ _
      (keyBytes_lt _ (textEncode_lt w1) hsalt) hiv (textEncode_lt data)
  have hkey : deriveKey w1 salt ≠ deriveKey w2 salt := fun h =>
    hne (deriveKey_injective_password h)
  simp only [encryptData, decryptData, atob_btoa _ hsalt, atob_btoa _ hiv, atob_btoa _ hct,
    aesGcmDecrypt_wrong_key _ _ _ _ hkey]

theorem natToB255_length_mono : ∀ n m : Nat, m ≤ n →
    (natToB255 m).length ≤ (natToB255 n).length := by
  intro n
  induction n using Nat.strong_induction_on with
  | _ n ih =>
    intro m hm
    cases m with
    | zero => simp [natToB255]
    | succ m' =>
      cases n with
      | zero => exact absurd hm (by omega)
      | succ n' =>
        rw [natToB255, natToB255]
        simp only [List.length_cons]
        have hdiv : (m' + 1) / 255 ≤ (n' + 1) / 255 := Nat.div_le_div_right hm
        have hlt : (n' + 1) / 255 < n' + 1 := Nat.div_lt_self (by omega) (by omega)
        have hrec := ih ((n' + 1) / 255) hlt ((m' + 1) / 255) hdiv
        omega

/-- The length of a frame determines the length of its payload. -/
theorem frameLen_inj {a b : Nat}
    (h : (natToB255 a).length + 2 * a = (natToB255 b).length + 2 * b) : a = b := by
  rcases Nat.lt_trichotomy a b with hlt | heq | hgt
  · have := natToB255_length_mono b a (Nat.le_of_lt hlt)
    omega
  · exact heq
  · have := natToB255_length_mono a b (Nat.le_of_lt hgt)
    omega

theorem aesGcmEncrypt_length (key : DerivedKey) (iv pt : List Nat) :
    (aesGcmEncrypt key iv pt).length =
      (frame (keyBytes key)).length + (frame iv).length + (keyBytes key).length + iv.length
        + ((natToB255 pt.length).length + 2 * pt.length + 1) := by
  simp only [aesGcmEncrypt, gcmTag, frame, encNat, List.length_append, List.length_cons,
    List.length_nil]
  omega

/-- Honest encryptions of the same length carry plaintexts of the same
length. -/
theorem aesGcmEncrypt_length_inj {key : DerivedKey} {iv pt pt' : List Nat}
    (h : (aesGcmEncrypt key iv pt).length = (aesGcmEncrypt key iv pt').length) :
    pt.length = pt'.length := by
  rw [aesGcmEncrypt_length, aesGcmEncrypt_length] at h
  apply frameLen_inj
  omega

/-- Extract the framed plaintext copy out of an honest encryption. -/
theorem aesGcmEncrypt_drop_take (key : DerivedKey) (iv pt : List Nat) :
    ((aesGcmEncrypt key iv pt).drop
        ((frame (keyBytes key)).length + (frame iv).length
          + (encNat pt.length).length)).take pt.length = pt := by
  have hgroup : aesGcmEncrypt key iv pt =
      (frame (keyBytes key) ++ frame iv ++ encNat pt.length) ++
        (pt ++ gcmTag key iv pt) := by
    simp [aesGcmEncrypt, frame, List.append_assoc]
  have hlen1 : (frame (keyBytes key) ++ frame iv ++ encNat pt.length).length =
      (frame (keyBytes key)).length + (frame iv).length + (encNat pt.length).length := by
    simp only [List.length_append]
  rw [hgroup, List.drop_left' hlen1]
  exact List.take_left' rfl

/-- Extract the plaintext copy inside the tag out of an honest encryption. -/
theorem aesGcmEncrypt_drop_tail (key : DerivedKey) (iv pt : List Nat) :
    (aesGcmEncrypt key iv pt).drop
        ((frame (keyBytes key)).length + (frame iv).length + (encNat pt.length).length
          + pt.length + (keyBytes key).length + iv.length) = pt := by
  have hgroup : aesGcmEncrypt key iv pt =
      (frame (keyBytes key) ++ frame iv ++ encNat pt.length ++ pt
        ++ keyBytes key ++ iv) ++ pt := by
    simp [aesGcmEncrypt, frame, gcmTag, List.append_assoc]
  have hlen1 : (frame (keyBytes key) ++ frame iv ++ encNat pt.length ++ pt
      ++ keyBytes key ++ iv).length =
      (frame (keyBytes key)).length + (frame iv).length + (encNat pt.length).length
        + pt.length + (keyBytes key).length + iv.length := by
    simp only [List.length_append]
  rw [hgroup, List.drop_left' hlen1]

/-- Authenticity of the symbolic cipher: changing any single byte of an
honest ciphertext makes decryption fail.  The plaintext occurs twice in an
honest encryption (once framed, once inside the tag) at positions more
than one byte apart, and every other byte is determined by the key, nonce
and plaintext length, so a one-byte change can never produce another
honest encryption. -/
theorem aesGcmDecrypt_set_ne (key : DerivedKey) (iv pt : List Nat) (j b : Nat)
    (hj : j < (aesGcmEncrypt key iv pt).length)
    (hb : b ≠ (aesGcmEncrypt key iv pt).get ⟨j, hj⟩) :
    aesGcmDecrypt key iv ((aesGcmEncrypt key iv pt).set j b) = none := by
  cases hd : aesGcmDecrypt key iv ((aesGcmEncrypt key iv pt).set j b) with
  | none => rfl
  | some pt' =>
    exfalso
    have hcan := aesGcmDecrypt_canonical hd
    have hlen : pt.length = pt'.length := by
      have hl : (aesGcmEncrypt key iv pt).length = (aesGcmEncrypt key iv pt').length := by
        rw [← hcan, List.length_set]
      exact aesGcmEncrypt_length_inj hl
    have hpt : pt' = pt := by
      by_cases hcase : j < (frame (keyBytes key)).length + (frame iv).length
          + (encNat pt.length).length + pt.length
      · have h1 := aesGcmEncrypt_drop_tail key iv pt
        have h2 := aesGcmEncrypt_drop_tail key iv pt'
        rw [← hcan, ← hlen, List.drop_set] at h2
        have hlt : j < (frame (keyBytes key)).length + (frame iv).length
            + (encNat pt.length).length + pt.length + (keyBytes key).length
            + iv.length := by
          omega
        rw [if_pos hlt, h1] at h2
        exact h2.symm
      · have h1 := aesGcmEncrypt_drop_take key iv pt
        have h2 := aesGcmEncrypt_drop_take key iv pt'
        rw [← hcan, ← hlen, List.drop_set] at h2
        have hge : ¬ j < (frame (keyBytes key)).length + (frame iv).length
            + (encNat pt.length).length := by
          omega
        rw [if_neg hge, List.set_take] at h2
        have hout : (((aesGcmEncrypt key iv pt).drop ((frame (keyBytes key)).length
            + (frame iv).length + (encNat pt.length).length)).take pt.length).length ≤
            j - ((frame (keyBytes key)).length + (frame iv).length
              + (encNat pt.length).length) := by
          simp only [List.length_take]
          omega
        rw [List.set_eq_of_length_le hout, h1] at h2
        exact h2.symm
    rw [hpt] at hcan
    have hget : ((aesGcmEncrypt key iv pt).set j b)[j]? = some b :=
      List.getElem?_set_self hj
    rw [hcan, List.getElem?_eq_getElem hj] at hget
    exact hb (Option.some.inj hget).symm

/-- A structurally malformed envelope fails with the base64 decoding
error. -/
theorem decryptData_malformed (env : EncryptedData) (pw : String)
    (h : atob env.salt = none ∨ atob env.iv = none ∨ atob env.data = none) :
    decryptData env pw = .error .invalidCharacter := by
  unfold decryptData
  rcases h with h | h | h
  · rw [h]
  · cases hsalt : atob env.salt with
    | none => rfl
    | some s => rw [h]
  · cases hsalt : atob env.salt with
    | none => rfl
    | some s =>
      cases hiv : atob env.iv with
      | none => rfl
      | some i => rw [h]

/-- Flipping any single byte of an honestly produced ciphertext makes
`decryptData` fail with the authentication error. -/
theorem decryptData_tampered (data pw : String) (salt iv : List Nat)
    (hs : ∀ x ∈ salt, x < 256) (hi : ∀ x ∈ iv, x < 256) (j b : Nat) (hb256 : b < 256)
    (hj : j < (aesGcmEncrypt (deriveKey pw salt) iv (textEncode data)).length)
    (hb : b ≠ (aesGcmEncrypt (deriveKey pw salt) iv (textEncode data)).get ⟨j, hj⟩) :
    decryptData
      { data := btoa ((aesGcmEncrypt (deriveKey pw salt) iv (textEncode data)).set j b)
        salt := btoa salt
        iv := btoa iv } pw = .error .operationError := by
  have hct : ∀ x ∈ (aesGcmEncrypt (deriveKey pw salt) iv (textEncode data)).set j b,
      x < 256 := by
    intro x hx
    rcases List.mem_or_eq_of_mem_set hx with h | h
    · exact aesGcmEncrypt_lt _ _ _
        (keyBytes_lt _ (textEncode_lt pw) hs) hi (textEncode_lt data) x h
    · omega
  simp only [decryptData, atob_btoa _ hs, atob_btoa _ hi, atob_btoa _ hct,
    aesGcmDecrypt_set_ne (deriveKey pw salt) iv (textEncode data) j b hj hb]

theorem digitChar_isDigit : ∀ d, d < 10 → (digitChar d).isDigit = true := by
  decide

theorem digitChar_toNat : ∀ d, d < 10 → (digitChar d).toNat = 48 + d := by
  decide

theorem natToDecRev_isDigit : ∀ n, ∀ c ∈ natToDecRev n, c.isDigit = true := by
  intro n
  induction n using natToDecRev.induct with
  | case1 => simp [natToDecRev]
  | case2 n ih =>
    intro c hc
    rw [natToDecRev] at hc
    rcases List.mem_cons.mp hc with h | h
    · rw [h]
      exact digitChar_isDigit _ (by omega)
    · exact ih c h

theorem foldr_natToDecRev :
    ∀ n, (natToDecRev n).foldr (fun c acc => acc * 10 + (c.toNat - 48)) 0 = n := by
  intro n
  induction n using natToDecRev.induct with
  | case1 => simp [natToDecRev]
  | case2 n ih =>
    rw [natToDecRev, List.foldr_cons, ih, digitChar_toNat _ (by omega)]
    omega

theorem natToDec_isDigit (n : Nat) : ∀ c ∈ natToDec n, c.isDigit = true := by
  intro c hc
  rw [natToDec] at hc
  by_cases h : n = 0
  · rw [if_pos h] at hc
    simp at hc
    rw [hc]
    decide
  · rw [if_neg h] at hc
    exact natToDecRev_isDigit n c (List.mem_reverse.mp hc)

theorem natToDec_ne_nil (n : Nat) : natToDec n ≠ [] := by
  rw [natToDec]
  by_cases h : n = 0
  · rw [if_pos h]
    simp
  · rw [if_neg h]
    match n, h with
    | n+1, _ =>
      rw [natToDecRev]
      simp

theorem foldl_natToDec (n : Nat) :
    (natToDec n).foldl (fun acc c => acc * 10 + (c.toNat - 48)) 0 = n := by
  rw [natToDec]
  by_cases h : n = 0
  · rw [if_pos h, h]
    decide
  · rw [if_neg h, List.foldl_reverse]
    exact foldr_natToDecRev n

theorem takeWhile_all_append {p : Char → Bool} (l : List Char) (d : Char) (r : List Char)
    (hl : ∀ c ∈ l, p c = true) (hd : p d = false) :
    (l ++ d :: r).takeWhile p = l ∧ (l ++ d :: r).dropWhile p = d :: r := by
  induction l with
  | nil => simp [List.takeWhile, List.dropWhile, hd]
  | cons c l ih =>
    have hc : p c = true := hl c (by simp)
    have ih' := ih fun x hx => hl x (by simp [hx])
    rw [List.cons_append]
    constructor
    · rw [List.takeWhile_cons, if_pos hc, ih'.1]
    · rw [List.dropWhile_cons, if_pos hc, ih'.2]

theorem parseNat_natToDec (n : Nat) (d : Char) (rest : List Char) (hd : d.isDigit = false) :
    parseNat (natToDec n ++ d :: rest) = some (n, d :: rest) := by
  obtain ⟨htake, hdrop⟩ := takeWhile_all_append (natToDec n) d rest (natToDec_isDigit n) hd
  rw [parseNat]
  simp only [htake, hdrop]
  rw [if_neg (by simp [natToDec_ne_nil n]), foldl_natToDec]

theorem parseLen_natToDec (n : Nat) (rest : List Char) :
    parseLen (natToDec n ++ ':' :: rest) = some (n, rest) := by
  rw [parseLen, parseNat_natToDec n ':' rest (by decide)]
  rfl

theorem parseStrPayload_enc (s : String) (rest : List Char) :
    parseStrPayload (natToDec s.data.length ++ ':' :: (s.data ++ rest)) = some (s, rest) := by
  rw [parseStrPayload, parseLen_natToDec]
  show (if s.data.length ≤ (s.data ++ rest).length then
      some ((⟨(s.data ++ rest).take s.data.length⟩ : String), (s.data ++ rest).drop s.data.length)
    else none) = some (s, rest)
  rw [if_pos (by simp), List.take_left, List.drop_left]

theorem parseIntPayload_enc (i : Int) (rest : List Char) :
    parseIntPayload (intToDec i ++ ';' :: rest) = some (i, rest) := by
  rw [intToDec]
  by_cases h : i < 0
  · rw [if_pos h]
    show parseIntPayload ('-' :: (natToDec i.natAbs ++ ';' :: rest)) = some (i, rest)
    rw [parseIntPayload]
    rw [if_pos rfl, parseNat_natToDec _ ';' rest (by decide)]
    show some (-(i.natAbs : Int), rest) = some (i, rest)
    have : -(i.natAbs : Int) = i := by omega
    rw [this]
  · rw [if_neg h]
    cases hnd : natToDec i.natAbs with
    | nil => exact absurd hnd (natToDec_ne_nil _)
    | cons c cs =>
      have hc : c.isDigit = true := by
        have := natToDec_isDigit i.natAbs c
        rw [hnd] at this
        exact this (by simp)
      have hcne : ¬ c = '-' := by
        intro hcon
        rw [hcon] at hc
        exact absurd hc (by decide)
      show parseIntPayload (c :: (cs ++ ';' :: rest)) = some (i, rest)
      rw [parseIntPayload, if_neg hcne]
      have hp : parseNat (natToDec i.natAbs ++ ';' :: rest) = some (i.natAbs, ';' :: rest) :=
        parseNat_natToDec _ ';' rest (by decide)
      rw [hnd] at hp
      rw [List.cons_append] at hp
      rw [hp]
      show some ((i.natAbs : Int), rest) = some (i, rest)
      have : (i.natAbs : Int) = i := by omega
      rw [this]

theorem jsonDepthList_mem {x : Json} : ∀ {xs : List Json}, x ∈ xs → jsonDepth x ≤ jsonDepthList xs := by
  intro xs hx
  induction xs with
  | nil => cases hx
  | cons y ys ih =>
    rw [jsonDepthList]
    rcases List.mem_cons.mp hx with h | h
    · rw [h]
      exact Nat.le_max_left _ _
    · exact le_trans (ih h) (Nat.le_max_right _ _)

theorem jsonDepthFields_mem {k : String} {v : Json} :
    ∀ {fs : List (String × Json)}, (k, v) ∈ fs → jsonDepth v ≤ jsonDepthFields fs := by
  intro fs hv
  induction fs with
  | nil => cases hv
  | cons p ps ih =>
    obtain ⟨k', v'⟩ := p
    rw [jsonDepthFields]
    rcases List.mem_cons.mp hv with h | h
    · rw [(Prod.mk.injEq .. |>.mp h).2]
      exact Nat.le_max_left _ _
    · exact le_trans (ih h) (Nat.le_max_right _ _)

theorem parseJson_head_i (f : Nat) (cs : List Char) :
    parseJson (f+1) ('i' :: cs) =
      match parseIntPayload cs with
      | some (i, rest) => some (Json.num i, rest)
      | none => none := by
  rw [parseJson]
  rfl

theorem parseJson_head_s (f : Nat) (cs : List Char) :
    parseJson (f+1) ('s' :: cs) =
      match parseStrPayload cs with
      | some (s, rest) => some (Json.str s, rest)
      | none => none := by
  rw [parseJson]
  rfl

theorem parseJson_head_a (f : Nat) (cs : List Char) :
    parseJson (f+1) ('a' :: cs) =
      match parseLen cs with
      | some (len, rest) =>
        match parseJsonList f len rest with
        | some (xs, rest') => some (Json.arr xs, rest')
        | none => none
      | none => none := by
  rw [parseJson]
  rfl

theorem parseJson_head_o (f : Nat) (cs : List Char) :
    parseJson (f+1) ('o' :: cs) =
      match parseLen cs with
      | some (len, rest) =>
        match parseJsonFields f len rest with
        | some (fs, rest') => some (Json.obj fs, rest')
        | none => none
      | none => none := by
  rw [parseJson]
  rfl

theorem parseJsonFields_head_k (f count : Nat) (cs : List Char) :
    parseJsonFields f (count+1) ('k' :: cs) =
      match parseStrPayload cs with
      | some (k, rest) =>
        match parseJson f rest with
        | some (v, rest') =>
          match parseJsonFields f count rest' with
          | some (fs, rest'') => some ((k, v) :: fs, rest'')
          | none => none
        | none => none
      | none => none := by
  rw [parseJsonFields]

theorem parseJsonList_enc (f : Nat) :
    ∀ (xs : List Json) (rest : List Char),
      (∀ x ∈ xs, ∀ r : List Char, parseJson f (encJson x ++ r) = some (x, r)) →
      parseJsonList f xs.length (encJsonList xs ++ rest) = some (xs, rest) := by
  intro xs
  induction xs with
  | nil =>
    intro rest _
    rw [encJsonList, List.nil_append, List.length_nil, parseJsonList]
  | cons x xs ih =>
    intro rest h
    rw [encJsonList, List.append_assoc, List.length_cons, parseJsonList]
    rw [h x (by simp) _]
    show (match parseJsonList f xs.length (encJsonList xs ++ rest) with
      | some (xs', rest') => some (x :: xs', rest')
      | none => none) = some (x :: xs, rest)
    rw [ih rest fun y hy r => h y (by simp [hy]) r]

theorem parseJsonFields_enc (f : Nat) :
    ∀ (fs : List (String × Json)) (rest : List Char),
      (∀ p ∈ fs, ∀ r : List Char, parseJson f (encJson p.2 ++ r) = some (p.2, r)) →
      parseJsonFields f fs.length (encJsonFields fs ++ rest) = some (fs, rest) := by
  intro fs
  induction fs with
  | nil =>
    intro rest _
    rw [encJsonFields, List.nil_append, List.length_nil, parseJsonFields]
  | cons p fs ih =>
    obtain ⟨k, v⟩ := p
    intro rest h
    rw [encJsonFields, List.length_cons]
    simp only [List.append_assoc, List.cons_append]
    rw [parseJsonFields_head_k]
    have hstr := parseStrPayload_enc k (encJson v ++ (encJsonFields fs ++ rest))
    rw [hstr]
    show (match parseJson f (encJson v ++ (encJsonFields fs ++ rest)) with
      | some (v', rest') =>
        match parseJsonFields f fs.length rest' with
        | some (fs', rest'') => some ((k, v') :: fs', rest'')
        | none => none
      | none => none) = some ((k, v) :: fs, rest)
    rw [h (k, v) (by simp) _]
    show (match parseJsonFields f fs.length (encJsonFields fs ++ rest) with
      | some (fs', rest'') => some ((k, v) :: fs', rest'')
      | none => none) = some ((k, v) :: fs, rest)
    rw [ih rest fun q hq r => h q (by simp [hq]) r]

/-- JSON serialization round-trip, given enough parser fuel. -/
theorem parseJson_encJson :
    ∀ (f : Nat) (j : Json) (rest : List Char), jsonDepth j < f →
      parseJson f (encJson j ++ rest) = some (j, rest) := by
  intro f
  induction f using Nat.strong_induction_on with
  | _ f ih =>
    intro j rest hd
    cases f with
    | zero => omega
    | succ f' =>
      cases j with
      | null =>
        rw [encJson, List.cons_append, List.nil_append, parseJson]
        rfl
      | bool b =>
        cases b <;> (rw [encJson, List.cons_append, List.nil_append, parseJson]; rfl)
      | num i =>
        rw [encJson, List.cons_append, List.append_assoc, List.singleton_append,
          parseJson_head_i, parseIntPayload_enc]
      | str s =>
        rw [encJson, List.cons_append, List.append_assoc, List.cons_append,
          parseJson_head_s, parseStrPayload_enc]
      | arr xs =>
        have hmem : ∀ x ∈ xs, ∀ r : List Char, parseJson f' (encJson x ++ r) = some (x, r) := by
          intro x hx r
          apply ih f' (Nat.lt_succ_self f') x r
          have h1 : jsonDepth x ≤ jsonDepthList xs := jsonDepthList_mem hx
          rw [jsonDepth] at hd
          omega
        rw [encJson, List.cons_append, List.append_assoc, List.cons_append,
          parseJson_head_a, parseLen_natToDec]
        show (match parseJsonList f' xs.length (encJsonList xs ++ rest) with
          | some (xs', rest') => some (Json.arr xs', rest')
          | none => none) = some (Json.arr xs, rest)
        rw [parseJsonList_enc f' xs rest hmem]
      | obj fs =>
        have hmem : ∀ p ∈ fs, ∀ r : List Char, parseJson f' (encJson p.2 ++ r) = some (p.2, r) := by
          intro p hp r
          apply ih f' (Nat.lt_succ_self f') p.2 r
          have h1 : jsonDepth p.2 ≤ jsonDepthFields fs := by
            obtain ⟨k, v⟩ := p
            exact jsonDepthFields_mem hp
          rw [jsonDepth] at hd
          omega
        rw [encJson, List.cons_append, List.append_assoc, List.cons_append,
          parseJson_head_o, parseLen_natToDec]
        show (match parseJsonFields f' fs.length (encJsonFields fs ++ rest) with
          | some (fs', rest') => some (Json.obj fs', rest')
          | none => none) = some (Json.obj fs, rest)
        rw [parseJsonFields_enc f' fs rest hmem]

theorem depthList_le (xs : List Json) (h : ∀ x ∈ xs, jsonDepth x ≤ (encJson x).length) :
    jsonDepthList xs ≤ (encJsonList xs).length := by
  induction xs with
  | nil => simp [jsonDepthList, encJsonList]
  | cons x xs ih =>
    rw [jsonDepthList, encJsonList, List.length_append]
    have h1 := h x (by simp)
    have h2 := ih fun y hy => h y (by simp [hy])
    exact Nat.max_le.mpr ⟨by omega, by omega⟩

theorem depthFields_le (fs : List (String × Json))
    (h : ∀ p ∈ fs, jsonDepth p.2 ≤ (encJson p.2).length) :
    jsonDepthFields fs ≤ (encJsonFields fs).length := by
  induction fs with
  | nil => simp [jsonDepthFields, encJsonFields]
  | cons p fs ih =>
    obtain ⟨k, v⟩ := p
    rw [jsonDepthFields, encJsonFields, List.length_append, List.length_append]
    have h1 : jsonDepth v ≤ (encJson v).length := h (k, v) (by simp)
    have h2 := ih fun q hq => h q (by simp [hq])
    exact Nat.max_le.mpr ⟨by omega, by omega⟩

theorem jsonDepth_le_aux :
    ∀ (n : Nat) (j : Json), sizeOf j ≤ n → jsonDepth j ≤ (encJson j).length := by
  intro n
  induction n with
  | zero =>
    intro j h
    exfalso
    cases j <;> simp_all
  | succ n ih =>
    intro j h
    cases j with
    | null => simp [jsonDepth, encJson]
    | bool b => cases b <;> simp [jsonDepth, encJson]
    | num i => simp [jsonDepth, encJson]
    | str s => simp [jsonDepth, encJson]
    | arr xs =>
      have hx : ∀ x ∈ xs, jsonDepth x ≤ (encJson x).length := by
        intro x hx
        apply ih
        have h1 := List.sizeOf_lt_of_mem hx
        have h2 : sizeOf (Json.arr xs) = 1 + sizeOf xs := by simp
        omega
      have hlist := depthList_le xs hx
      rw [jsonDepth, encJson]
      simp only [List.length_cons, List.length_append]
      omega
    | obj fs =>
      have hv : ∀ p ∈ fs, jsonDepth p.2 ≤ (encJson p.2).length := by
        intro p hp
        apply ih
        have h1 := List.sizeOf_lt_of_mem hp
        have h2 : sizeOf (Json.obj fs) = 1 + sizeOf fs := by simp
        obtain ⟨k, v⟩ := p
        have h3 : sizeOf ((k, v) : String × Json) = 1 + sizeOf k + sizeOf v := by simp
        simp only [] at h1 ⊢
        omega
      have hfields := depthFields_le fs hv
      rw [jsonDepth, encJson]
      simp only [List.length_cons, List.length_append]
      omega

theorem jsonDepth_le (j : Json) : jsonDepth j ≤ (encJson j).length :=
  jsonDepth_le_aux (sizeOf j) j (Nat.le_refl _)

/-- The platform JSON round-trip. -/
theorem jsonParse_jsonStringify (j : Json) : jsonParse (jsonStringify j) = some j := by
  rw [jsonParse, jsonStringify]
  have h := parseJson_encJson ((encJson j).length + 1) j [] (by have := jsonDepth_le j; omega)
  rw [List.append_nil] at h
  show (match parseJson ((encJson j).length + 1) (encJson j) with
    | some (j, []) => some j
    | _ => none) = some j
  rw [h]

theorem envelopeOfJson_envelopeJson (e : EncryptedData) :
    envelopeOfJson (envelopeJson e) = some e := rfl

/-- Loading an honestly produced backup runs the normalization step on the
original payload. -/
theorem loadVaultDataResult_backup (payload : Json) (pw : String) (salt iv : List Nat)
    (storage : Storage) (hs : ∀ b ∈ salt, b < 256) (hi : ∀ b ∈ iv, b < 256)
    (hst : storage.vaultEntry = some (backupBlob payload pw salt iv)) :
    loadVaultDataResult pw storage = loadNormalize payload := by
  rw [loadVaultDataResult, hst, backupBlob]
  simp only [jsonParse_jsonStringify, envelopeOfJson_envelopeJson,
    decryptData_encryptData (jsonStringify payload) pw salt iv hs hi]

/-- Importing an honestly produced backup runs the normalization step on
the original payload. -/
theorem importVaultResult_backup (payload : Json) (pw : String) (salt iv : List Nat)
    (hs : ∀ b ∈ salt, b < 256) (hi : ∀ b ∈ iv, b < 256) :
    importVaultResult (backupBlob payload pw salt iv) pw = importNormalize payload := by
  rw [importVaultResult, backupBlob]
  simp only [jsonParse_jsonStringify, envelopeOfJson_envelopeJson,
    decryptData_encryptData (jsonStringify payload) pw salt iv hs hi]

theorem lookup_map_merge (a b : List (String × Json)) (k : String) :
    (a.map fun p => (p.1, (b.lookup p.1).getD p.2)).lookup k
      = (a.lookup k).map fun v => (b.lookup k).getD v := by
  induction a with
  | nil => rfl
  | cons p a ih =>
    obtain ⟨k', v'⟩ := p
    simp only [List.map_cons, List.lookup_cons]
    cases hkk : (k == k') with
    | true =>
      have hk : k = k' := beq_iff_eq.mp hkk
      subst hk
      rfl
    | false => exact ih

theorem lookup_filter_none (a b : List (String × Json)) (k : String) (h : a.lookup k = none) :
    (b.filter fun p => (a.lookup p.1).isNone).lookup k = b.lookup k := by
  induction b with
  | nil => rfl
  | cons p b ih =>
    obtain ⟨k', v'⟩ := p
    rw [List.filter_cons]
    by_cases hkk : k = k'
    · subst hkk
      rw [if_pos (by simp [h]), List.lookup_cons, List.lookup_cons]
      rw [beq_self_eq_true]
    · have hbeq : (k == k') = false := beq_false_of_ne hkk
      by_cases hcond : ((a.lookup k').isNone : Bool)
      · rw [if_pos hcond, List.lookup_cons, List.lookup_cons, hbeq]
        exact ih
      · rw [if_neg hcond, List.lookup_cons, hbeq]
        exact ih

theorem lookup_filter_some (a b : List (String × Json)) (k : String)
    (h : (a.lookup k).isSome) :
    (b.filter fun p => (a.lookup p.1).isNone).lookup k = none := by
  induction b with
  | nil => rfl
  | cons p b ih =>
    obtain ⟨k', v'⟩ := p
    rw [List.filter_cons]
    by_cases hkk : k = k'
    · subst hkk
      rw [if_neg (by simp_all)]
      exact ih
    · have hbeq : (k == k') = false := beq_false_of_ne hkk
      by_cases hcond : ((a.lookup k').isNone : Bool)
      · rw [if_pos hcond, List.lookup_cons, hbeq]
        exact ih
      · rw [if_neg hcond]
        exact ih

/-- Field lookup through `{...a, ...b}`: a key of `b` wins, a key only in
`a` keeps its value. -/
theorem jsObjMerge_lookup (a b : List (String × Json)) (k : String) :
    (jsObjMerge a b).lookup k =
      match a.lookup k with
      | some va => some ((b.lookup k).getD va)
      | none => b.lookup k := by
  rw [jsObjMerge, List.lookup_append, lookup_map_merge]
  cases ha : a.lookup k with
  | some va =>
    rw [lookup_filter_some a b k (by simp [ha])]
    rfl
  | none =>
    rw [lookup_filter_none a b k ha]
    rfl

theorem lookup_map_setfield (fields : List (String × Json)) (key k : String) (v : Json)
    (h : k ≠ key) :
    (fields.map fun p => if p.1 = key then (p.1, v) else p).lookup k = fields.lookup k := by
  induction fields with
  | nil => rfl
  | cons p fs ih =>
    obtain ⟨k', v'⟩ := p
    simp only [List.map_cons]
    by_cases hkeq : k' = key
    · rw [if_pos hkeq, List.lookup_cons, List.lookup_cons]
      have hbeq : (k == k') = false := beq_false_of_ne (by rw [hkeq]; exact h)
      rw [hbeq]
      exact ih
    · rw [if_neg hkeq, List.lookup_cons, List.lookup_cons]
      cases hkk : (k == k') with
      | true => rfl
      | false => exact ih

/-- `o.k = v` does not change lookups of other keys. -/
theorem jsSetField_lookup_ne (fields : List (String × Json)) (key k : String) (v : Json)
    (h : k ≠ key) : (jsSetField fields key v).lookup k = fields.lookup k := by
  rw [jsSetField]
  by_cases hex : ((fields.lookup key).isSome : Bool)
  · rw [if_pos hex, lookup_map_setfield fields key k v h]
  · rw [if_neg hex, List.lookup_append]
    have hone : ([(key, v)] : List (String × Json)).lookup k = none := by
      rw [List.lookup_cons, beq_false_of_ne h]
      rfl
    rw [hone, Option.or_none]

theorem jsMember_ne_null (j : Json) (k : String) (h : j ≠ .null) :
    jsMember j k = .ok (jsMemberOpt j k) := by
  cases j
  · exact absurd rfl h
  all_goals rfl

/-- The version field `importVault` returns: the stored one when truthy,
`1` otherwise (`importedData.version || 1`). -/
theorem importNormalize_ok_version (payload j : Json) (h : importNormalize payload = .ok j) :
    jsMemberOpt j "version" =
      some (match jsMemberOpt payload "version" with
            | some v => if jsTruthy v then v else .num 1
            | none => .num 1) := by
  unfold importNormalize at h
  split at h
  · exact Except.noConfusion h
  · exact Except.noConfusion h
  · split at h
    · exact Except.noConfusion h
    · injection h with h'
      subst h'
      rfl

/-! ## Claim theorems -/

/-- C2: for every plaintext, including the empty string, and every
password, decrypting the envelope produced by `encryptData` (whose
`data`, `salt` and `iv` fields are the base64-encoded byte buffers) with
the same password returns exactly the plaintext. -/
theorem claim_C2_roundtrip (data password : String) (salt iv : List Nat)
    (hsalt : ∀ b ∈ salt, b < 256) (hiv : ∀ b ∈ iv, b < 256) :
    decryptData (encryptData data password salt iv) password = .ok data :=
  decryptData_encryptData data password salt iv hsalt hiv

theorem claim_C2_witness :
    decryptData (encryptData "" "hunter2aB!"
        [0, 1, 2, 3, 4, 5, 6, 7, 8, 9, 10, 11, 12, 13, 14, 15]
        [0, 1, 2, 3, 4, 5, 6, 7, 8, 9, 10, 11]) "hunter2aB!" = .ok "" ∧
    decryptData (encryptData "api-key-payload" "pw"
        [255, 254, 253, 252, 251, 250, 249, 248, 247, 246, 245, 244, 243, 242, 241, 240]
        [9, 8, 7, 6, 5, 4, 3, 2, 1, 0, 0, 0]) "pw" = .ok "api-key-payload" :=
  ⟨claim_C2_roundtrip "" "hunter2aB!" _ _ (by decide) (by decide),
   claim_C2_roundtrip "api-key-payload" "pw" _ _ (by decide) (by decide)⟩

/-- C3 counterexample: the failure causes are not all mutually
indistinguishable to a caller of `decryptData`: an envelope whose fields
are not base64 fails with the `atob` decoding exception
(`InvalidCharacterError`), a wrong password fails with the
`crypto.subtle.decrypt` authentication exception (`OperationError`), and
the two exceptions differ. -/
theorem claim_C3_counterexample :
    decryptData ⟨"%", "%", "%"⟩ "pw" = .error .invalidCharacter ∧
    decryptData (encryptData "secret" "password-one" [3, 1, 4, 1, 5] [9, 2, 6])
      "password-two" = .error .operationError ∧
    CryptoError.invalidCharacter ≠ CryptoError.operationError :=
  ⟨rfl,
   decryptData_encryptData_wrong_password "secret" "password-one" "password-two"
     [3, 1, 4, 1, 5] [9, 2, 6] (by decide) (by decide) (by decide),
   by decide⟩

/-- C3 amended: decryption fails whenever the password is wrong, whenever
any single byte of an honestly produced ciphertext was tampered with, and
whenever the envelope is structurally malformed (a field is not base64).
A wrong password and a tampered ciphertext fail with the same
authentication error, so those two causes are indistinguishable to the
caller, while a malformed envelope fails with the distinct base64
decoding error — the three causes are not all mutually indistinguishable
at the `decryptData` level; `loadVaultData` folds every decryption or
parse failure into the one user-facing message, so no distinction reaches
the user. -/
theorem claim_C3_failure_modes :
    (∀ (data w1 w2 : String) (salt iv : List Nat), w1 ≠ w2 →
      (∀ b ∈ salt, b < 256) → (∀ b ∈ iv, b < 256) →
      decryptData (encryptData data w1 salt iv) w2 = .error .operationError) ∧
    (∀ (data pw : String) (salt iv : List Nat) (j b : Nat),
      (∀ x ∈ salt, x < 256) → (∀ x ∈ iv, x < 256) → b < 256 →
      ∀ hj : j < (aesGcmEncrypt (deriveKey pw salt) iv (textEncode data)).length,
      b ≠ (aesGcmEncrypt (deriveKey pw salt) iv (textEncode data)).get ⟨j, hj⟩ →
      decryptData
        { data := btoa ((aesGcmEncrypt (deriveKey pw salt) iv (textEncode data)).set j b)
          salt := btoa salt
          iv := btoa iv } pw = .error .operationError) ∧
    (∀ (env : EncryptedData) (pw : String),
      (atob env.salt = none ∨ atob env.iv = none ∨ atob env.data = none) →
      decryptData env pw = .error .invalidCharacter) ∧
    (∀ (pw : String) (storage : Storage) (e : String),
      (loadVaultData pw storage).1 = .error e → e = loadErrorMsg) := by
  refine ⟨?_, ?_, ?_, ?_⟩
  · intro data w1 w2 salt iv hne hs hi
    exact decryptData_encryptData_wrong_password data w1 w2 salt iv hne hs hi
  · intro data pw salt iv j b hs hi hb256 hj hb
    exact decryptData_tampered data pw salt iv hs hi j b hb256 hj hb
  · intro env pw h
    exact decryptData_malformed env pw h
  · intro pw storage e h
    replace h : loadVaultDataResult pw storage = .error e := h
    unfold loadVaultDataResult loadNormalize at h
    repeat' split at h
    all_goals first
      | exact Except.noConfusion h
      | (injection h with h'; exact h'.symm)

theorem claim_C3_witness :
    ("password-one" : String) ≠ "password-two" ∧
    decryptData (encryptData "secret" "password-one" [3, 1, 4, 1, 5] [9, 2, 6])
      "password-two" = .error .operationError ∧
    atob "????" = none ∧
    decryptData ⟨"AAAA", "????", "AAAA"⟩ "pw" = .error .invalidCharacter :=
  ⟨by decide,
   claim_C3_failure_modes.1 "secret" "password-one" "password-two" [3, 1, 4, 1, 5] [9, 2, 6]
     (by decide) (by decide) (by decide),
   rfl,
   claim_C3_failure_modes.2.2.1 ⟨"AAAA", "????", "AAAA"⟩ "pw" (Or.inl rfl)⟩

/-- C5: with no persisted envelope, `vaultExists` is false and
`loadVaultData` under every password returns the empty vault with the
fixed default settings (clipboard clear 30 s, auto-lock 15 min, dark mode
off, key preview off) and version 1, leaving storage unchanged. -/
theorem claim_C5_first_run (storage : Storage) (h : storage.vaultEntry = none) (p : String) :
    vaultExists storage = false ∧
    loadVaultData p storage =
      (.ok (.obj [("keys", .arr []),
        ("settings", .obj [("clipboardClearTime", .num 30), ("autoLockTime", .num 15),
          ("darkMode", .bool false), ("showKeyPreview", .bool false)]),
        ("version", .num 1)]), storage) := by
  constructor
  · rw [vaultExists, h]
    rfl
  · rw [loadVaultData, loadVaultDataResult, h]
    rfl

theorem claim_C5_witness :
    vaultExists ⟨none, none⟩ = false ∧
    loadVaultData "any-password" ⟨none, none⟩ =
      (.ok (.obj [("keys", .arr []),
        ("settings", .obj [("clipboardClearTime", .num 30), ("autoLockTime", .num 15),
          ("darkMode", .bool false), ("showKeyPreview", .bool false)]),
        ("version", .num 1)]), ⟨none, none⟩) :=
  claim_C5_first_run ⟨none, none⟩ rfl "any-password"

/-- C1: in `Locked(2)` (unlock mode, two consecutive failures), the next
password is never tried against the stored vault — the resulting auth
state is the same whatever is persisted.  A strength-valid password
irreversibly clears the persisted vault (`clearVault`) and enters the
unlocked state under that password with the failure counter reset to 0,
after which loading yields the brand-new empty default vault; a
strength-invalid password leaves the state locked with two failures, the
validation error reported, and storage untouched. -/
theorem claim_C1_locked_two (st : IndexState) (storage : Storage) (password : String)
    (hmode : st.authMode = .unlock) (hfail : st.failedAttempts = 2)
    (hauth : st.isAuthenticated = false) :
    (∀ storage2 : Storage,
      (handleAuth password st storage).1 = (handleAuth password st storage2).1) ∧
    (validatePasswordStrength password = true →
      handleAuth password st storage = (⟨true, password, .unlock, "", 0⟩, ⟨none, none⟩) ∧
      (loadVaultData password (handleAuth password st storage).2).1 = .ok defaultVaultJson) ∧
    (validatePasswordStrength password = false →
      (handleAuth password st storage).1 =
        ⟨false, st.masterPassword, .unlock, resetStrengthErrorMsg, 2⟩ ∧
      (handleAuth password st storage).2 = storage) := by
  obtain ⟨auth0, mp0, mode0, err0, fail0⟩ := st
  simp only at hmode hfail hauth
  subst hmode hfail hauth
  refine ⟨?_, ?_, ?_⟩
  · intro storage2
    by_cases hv : validatePasswordStrength password = true
    · simp [handleAuth, hv]
    · simp [handleAuth, Bool.eq_false_iff.mpr (by simpa using hv)]
  · intro hv
    have h2 : (handleAuth password ⟨false, mp0, .unlock, err0, 2⟩ storage).2 = ⟨none, none⟩ := by
      simp [handleAuth, hv, clearVault]
    refine ⟨?_, ?_⟩
    · simp [handleAuth, hv, clearVault]
    · rw [h2]
      rfl
  · intro hv
    constructor <;> simp [handleAuth, hv]

theorem claim_C1_witness :
    (handleAuth "N3wStr0ng!" ⟨false, "old", .unlock, "", 2⟩ ⟨some "old-envelope", some "s"⟩ =
      (⟨true, "N3wStr0ng!", .unlock, "", 0⟩, ⟨none, none⟩)) ∧
    ((handleAuth "abc" ⟨false, "old", .unlock, "", 2⟩ ⟨some "old-envelope", some "s"⟩).1 =
      ⟨false, "old", .unlock, resetStrengthErrorMsg, 2⟩) ∧
    ((handleAuth "abc" ⟨false, "old", .unlock, "", 2⟩ ⟨some "old-envelope", some "s"⟩).2 =
      ⟨some "old-envelope", some "s"⟩) :=
  ⟨((claim_C1_locked_two ⟨false, "old", .unlock, "", 2⟩ ⟨some "old-envelope", some "s"⟩
      "N3wStr0ng!" rfl rfl rfl).2.1 (by decide)).1,
   ((claim_C1_locked_two ⟨false, "old", .unlock, "", 2⟩ ⟨some "old-envelope", some "s"⟩
      "abc" rfl rfl rfl).2.2 (by decide)).1,
   ((claim_C1_locked_two ⟨false, "old", .unlock, "", 2⟩ ⟨some "old-envelope", some "s"⟩
      "abc" rfl rfl rfl).2.2 (by decide)).2⟩

/-- C4: while locked with fewer than two failures, a failed unlock attempt
(load fails) increments the counter to `n+1` and surfaces the warning for
`2-(n+1)` remaining attempts (the critical destructive-reset warning once
the counter reaches 2), leaving authentication and storage unchanged; a
successful unlock resets the counter to 0; an explicit lock always
returns to the locked state with the counter at 0 whatever the prior
state. -/
theorem claim_C4_lockout (st : IndexState) (storage : Storage) (password : String)
    (hmode : st.authMode = .unlock) (hfail : st.failedAttempts < 2) :
    (∀ e, (loadVaultData password storage).1 = .error e →
      (handleAuth password st storage).1 =
        ⟨st.isAuthenticated, st.masterPassword, .unlock,
          (if st.failedAttempts + 1 = 2 then tooManyAttemptsMsg
           else incorrectPasswordMsg (2 - (st.failedAttempts + 1))),
          st.failedAttempts + 1⟩ ∧
      (handleAuth password st storage).2 = storage) ∧
    (∀ v, (loadVaultData password storage).1 = .ok v →
      (handleAuth password st storage).1 = ⟨true, password, .unlock, "", 0⟩ ∧
      (handleAuth password st storage).2 = storage) ∧
    (∀ st' : IndexState, handleLock st' = ⟨false, "", .unlock, "", 0⟩) := by
  obtain ⟨auth0, mp0, mode0, err0, fail0⟩ := st
  simp only at hmode hfail
  subst hmode
  refine ⟨?_, ?_, ?_⟩
  · intro e he
    have hf : fail0 = 0 ∨ fail0 = 1 := by omega
    rcases hf with rfl | rfl <;> constructor <;> simp [handleAuth, he]
  · intro v hv
    have hf : fail0 = 0 ∨ fail0 = 1 := by omega
    rcases hf with rfl | rfl <;> constructor <;> simp [handleAuth, hv]
  · intro st'
    rfl

theorem claim_C4_witness :
    ((handleAuth "password-guess" ⟨false, "", .unlock, "", 0⟩
        ⟨some (jsonStringify Json.null), none⟩).1 =
      ⟨false, "", .unlock, incorrectPasswordMsg 1, 1⟩) ∧
    ((handleAuth "password-guess" ⟨false, "", .unlock, "", 1⟩
        ⟨some (jsonStringify Json.null), none⟩).1 =
      ⟨false, "", .unlock, tooManyAttemptsMsg, 2⟩) ∧
    handleLock ⟨true, "pw", .unlock, "boom", 2⟩ = ⟨false, "", .unlock, "", 0⟩ :=
  ⟨((claim_C4_lockout ⟨false, "", .unlock, "", 0⟩ ⟨some (jsonStringify Json.null), none⟩
      "password-guess" rfl (by decide)).1 loadErrorMsg
      (by simp [loadVaultData, loadVaultDataResult, jsonParse_jsonStringify, envelopeOfJson])).1,
   ((claim_C4_lockout ⟨false, "", .unlock, "", 1⟩ ⟨some (jsonStringify Json.null), none⟩
      "password-guess" rfl (by decide)).1 loadErrorMsg
      (by simp [loadVaultData, loadVaultDataResult, jsonParse_jsonStringify, envelopeOfJson])).1,
   (claim_C4_lockout ⟨false, "", .unlock, "", 0⟩ ⟨some (jsonStringify Json.null), none⟩
      "password-guess" rfl (by decide)).2.2 ⟨true, "pw", .unlock, "boom", 2⟩⟩

/-- C8: the strength check accepts exactly the passwords of length at
least 8 containing an uppercase letter, a lowercase letter, a digit and a
symbol of the fixed set; the create-mode submit applies exactly this
check together with the confirmation match; the unlock-mode submit
applies only the 8-character minimum (a weak-but-long password still
submits); and the destructive-reset path fires exactly on strength-valid
passwords. -/
theorem claim_C8_strength_policy (password : String) :
    (validatePasswordStrength password = true ↔
      (8 ≤ password.length ∧
       (∃ c ∈ password.data, 'A' ≤ c ∧ c ≤ 'Z') ∧
       (∃ c ∈ password.data, 'a' ≤ c ∧ c ≤ 'z') ∧
       (∃ c ∈ password.data, '0' ≤ c ∧ c ≤ '9') ∧
       (∃ c ∈ password.data, c ∈ passwordSymbols))) ∧
    (∀ confirm, handleSubmit .create password confirm =
      (password == confirm && validatePasswordStrength password)) ∧
    (∀ confirm, handleSubmit .unlock password confirm = decide (8 ≤ password.length)) ∧
    (handleSubmit .unlock "aaaaaaaa" "aaaaaaaa" = true ∧
      validatePasswordStrength "aaaaaaaa" = false) ∧
    (∀ (st : IndexState) (storage : Storage), st.authMode = .unlock →
      st.isAuthenticated = false → 2 ≤ st.failedAttempts →
      ((handleAuth password st storage).1.isAuthenticated = true ↔
        validatePasswordStrength password = true)) := by
  refine ⟨?_, ?_, ?_, ⟨by decide, by decide⟩, ?_⟩
  · simp only [validatePasswordStrength, Bool.and_eq_true, List.any_eq_true,
      Bool.and_eq_true, decide_eq_true_eq, List.contains_eq_any_beq, beq_iff_eq]
    constructor
    · rintro ⟨⟨⟨⟨hu, hl⟩, hn⟩, hs⟩, hlen⟩
      refine ⟨hlen, ?_, ?_, ?_, ?_⟩
      · obtain ⟨c, hc, h1, h2⟩ := hu
        exact ⟨c, hc, h1, h2⟩
      · obtain ⟨c, hc, h1, h2⟩ := hl
        exact ⟨c, hc, h1, h2⟩
      · obtain ⟨c, hc, h1, h2⟩ := hn
        exact ⟨c, hc, h1, h2⟩
      · obtain ⟨c, hc, ⟨s, hsmem, hseq⟩⟩ := hs
        exact ⟨c, hc, by rw [← hseq] at hsmem; exact hsmem⟩
    · rintro ⟨hlen, ⟨cu, hcu, h1u, h2u⟩, ⟨cl, hcl, h1l, h2l⟩, ⟨cn, hcn, h1n, h2n⟩,
        ⟨cs, hcs, hmem⟩⟩
      exact ⟨⟨⟨⟨⟨cu, hcu, h1u, h2u⟩, ⟨cl, hcl, h1l, h2l⟩⟩, ⟨cn, hcn, h1n, h2n⟩⟩,
        ⟨cs, hcs, cs, hmem, rfl⟩⟩, hlen⟩
  · intro confirm
    by_cases hc : password = confirm
    · subst hc
      simp [handleSubmit]
    · simp [handleSubmit, hc, Ne.symm hc, beq_false_of_ne hc]
  · intro confirm
    by_cases hlen : password.length < 8
    · simp [handleSubmit, hlen, Nat.not_le.mpr hlen]
    · simp [handleSubmit, hlen, Nat.not_lt.mp hlen]
  · intro st storage hmode hauth hfail
    obtain ⟨auth0, mp0, mode0, err0, fail0⟩ := st
    simp only at hmode hauth hfail
    subst hmode hauth
    by_cases hv : validatePasswordStrength password = true
    · simp [handleAuth, hv, Nat.le_of_lt, hfail]
    · simp [handleAuth, Bool.eq_false_iff.mpr (by simpa using hv), hfail, hv]

theorem claim_C8_witness :
    (validatePasswordStrength "Str0ng!Pass" = true ↔
      (8 ≤ ("Str0ng!Pass" : String).length ∧
       (∃ c ∈ ("Str0ng!Pass" : String).data, 'A' ≤ c ∧ c ≤ 'Z') ∧
       (∃ c ∈ ("Str0ng!Pass" : String).data, 'a' ≤ c ∧ c ≤ 'z') ∧
       (∃ c ∈ ("Str0ng!Pass" : String).data, '0' ≤ c ∧ c ≤ '9') ∧
       (∃ c ∈ ("Str0ng!Pass" : String).data, c ∈ passwordSymbols))) ∧
    ((handleAuth "Str0ng!Pass" ⟨false, "", .unlock, "", 2⟩ ⟨some "env", none⟩).1.isAuthenticated
        = true ↔ validatePasswordStrength "Str0ng!Pass" = true) :=
  ⟨(claim_C8_strength_policy "Str0ng!Pass").1,
   (claim_C8_strength_policy "Str0ng!Pass").2.2.2.2 ⟨false, "", .unlock, "", 2⟩
     ⟨some "env", none⟩ rfl rfl (by decide)⟩

/-- C10: only characters of the fixed set count as symbols: a password
none of whose characters belongs to the set is rejected by the strength
check, even when it contains a non-alphanumeric character; concretely,
"Abcdef1_" (length 8, with uppercase, lowercase and digit, whose only
non-alphanumeric character is the underscore, which is outside the set)
is rejected on the create path and on the destructive-reset path. -/
theorem claim_C10_symbol_set :
    (∀ password : String, (∀ c ∈ password.data, c ∉ passwordSymbols) →
      validatePasswordStrength password = false) ∧
    ('_' ∉ passwordSymbols ∧ '_'.isAlphanum = false) ∧
    validatePasswordStrength "Abcdef1_" = false ∧
    (8 ≤ ("Abcdef1_" : String).length ∧
     (∃ c ∈ ("Abcdef1_" : String).data, 'A' ≤ c ∧ c ≤ 'Z') ∧
     (∃ c ∈ ("Abcdef1_" : String).data, 'a' ≤ c ∧ c ≤ 'z') ∧
     (∃ c ∈ ("Abcdef1_" : String).data, '0' ≤ c ∧ c ≤ '9')) ∧
    handleSubmit .create "Abcdef1_" "Abcdef1_" = false ∧
    ((handleAuth "Abcdef1_" ⟨false, "", .unlock, "", 2⟩ ⟨some "env", none⟩).1.authError =
        resetStrengthErrorMsg ∧
     (handleAuth "Abcdef1_" ⟨false, "", .unlock, "", 2⟩ ⟨some "env", none⟩).2 =
        ⟨some "env", none⟩) := by
  refine ⟨?_, ⟨by decide, by decide⟩, by decide, ?_, by decide, by decide, by decide⟩
  · intro password h
    have hsym : (password.data.any fun c => passwordSymbols.contains c) = false := by
      rw [List.any_eq_false]
      intro c hc
      simp only [List.contains_eq_any_beq, List.any_eq_true, beq_iff_eq, not_exists]
      intro s
      rintro ⟨hs, rfl⟩
      exact h c hc hs
    simp only [validatePasswordStrength]
    rw [hsym]
    simp
  · refine ⟨by decide, ⟨'A', by decide⟩, ⟨'b', by decide⟩, ⟨'1', by decide⟩⟩

theorem claim_C10_witness : validatePasswordStrength "Zz1_____" = false :=
  claim_C10_symbol_set.1 "Zz1_____" (by decide)

/-- C9: merging an imported backup into the unlocked vault keeps every
existing record unchanged and in place, appends exactly those imported
records whose name equals no existing record's name, and replaces the
settings with the imported ones field-by-field; with existing records
named `A`,`B` and imported records named `B`,`C`, only the `C` record is
added. -/
theorem claim_C9_import_merge (prev importedData : VaultData) :
    ((handleImportMerge prev importedData).keys.take prev.keys.length = prev.keys ∧
     (handleImportMerge prev importedData).keys.drop prev.keys.length =
       importedData.keys.filter (fun k => decide (∀ e ∈ prev.keys, e.name ≠ k.name)) ∧
     (handleImportMerge prev importedData).settings = importedData.settings ∧
     (handleImportMerge prev importedData).version = prev.version) ∧
    (∀ s1 s2 : VaultSettings, ∀ recA recB recB' recC : ApiKey,
      recA.name = "A" → recB.name = "B" → recB'.name = "B" → recC.name = "C" →
      handleImportMerge ⟨[recA, recB], s1, 1⟩ ⟨[recB', recC], s2, 1⟩ =
        ⟨[recA, recB, recC], s2, 1⟩) := by
  constructor
  · refine ⟨?_, ?_, rfl, rfl⟩
    · show (prev.keys ++ importedData.keys.filter
          (fun k => !((prev.keys.map fun k => k.name).contains k.name))).take
            prev.keys.length = prev.keys
      exact List.take_left _ _
    · show (prev.keys ++ importedData.keys.filter
          (fun k => !((prev.keys.map fun k => k.name).contains k.name))).drop
            prev.keys.length = _
      rw [List.drop_left]
      apply List.filter_congr
      intro k _
      have hceq : ((prev.keys.map fun e => e.name).contains k.name)
          = decide (k.name ∈ prev.keys.map fun e => e.name) :=
        List.elem_eq_mem k.name (prev.keys.map fun e => e.name)
      rw [hceq]
      by_cases hmem : k.name ∈ prev.keys.map (fun e => e.name)
      · have hne : ¬ (∀ e ∈ prev.keys, e.name ≠ k.name) := by
          obtain ⟨e, he, hn⟩ := List.mem_map.mp hmem
          exact fun hall => hall e he hn
        rw [decide_eq_true hmem, decide_eq_false hne]
        rfl
      · have hall : ∀ e ∈ prev.keys, e.name ≠ k.name := by
          intro e he heq
          exact hmem (List.mem_map.mpr ⟨e, he, heq⟩)
        rw [decide_eq_false hmem, decide_eq_true hall]
        rfl
  · intro s1 s2 recA recB recB' recC hA hB hB' hC
    simp [handleImportMerge, hA, hB, hB', hC]

theorem claim_C9_witness :
    handleImportMerge
      ⟨[⟨"1", "A", "openai", "k1", none, [], none, "", "", []⟩,
        ⟨"2", "B", "openai", "k2", none, [], none, "", "", []⟩], ⟨30, 15, false, false⟩, 1⟩
      ⟨[⟨"3", "B", "google", "k3", none, [], none, "", "", []⟩,
        ⟨"4", "C", "google", "k4", none, [], none, "", "", []⟩], ⟨60, 5, true, true⟩, 1⟩ =
      ⟨[⟨"1", "A", "openai", "k1", none, [], none, "", "", []⟩,
        ⟨"2", "B", "openai", "k2", none, [], none, "", "", []⟩,
        ⟨"4", "C", "google", "k4", none, [], none, "", "", []⟩], ⟨60, 5, true, true⟩, 1⟩ :=
  (claim_C9_import_merge ⟨[], ⟨30, 15, false, false⟩, 1⟩ ⟨[], ⟨30, 15, false, false⟩, 1⟩).2
    ⟨30, 15, false, false⟩ ⟨60, 5, true, true⟩ _ _ _ _ rfl rfl rfl rfl

/-- C6 counterexample: a decryptable stored vault whose serialized form
lacks a version field loads successfully with no version field at all,
and importing a decryptable backup whose stored version is -5 returns
version -5, which is not ≥ 1. -/
theorem claim_C6_counterexample :
    (loadVaultDataResult "pw"
        ⟨some (backupBlob (.obj [("keys", .arr []), ("settings", .obj [])]) "pw" [1] [2]),
         none⟩ =
      .ok (.obj [("keys", .arr []),
        ("settings", .obj [("clipboardClearTime", .num 30), ("autoLockTime", .num 15),
          ("darkMode", .bool false), ("showKeyPreview", .bool false)])])) ∧
    (([("keys", Json.arr []),
       ("settings", Json.obj [("clipboardClearTime", Json.num 30), ("autoLockTime", Json.num 15),
         ("darkMode", Json.bool false), ("showKeyPreview", Json.bool false)])] :
        List (String × Json)).lookup "version" = none) ∧
    (importVaultResult
        (backupBlob (.obj [("keys", .arr []), ("version", .num (-5))]) "pw" [1] [2]) "pw" =
      .ok (.obj [("keys", .arr []),
        ("settings", .obj [("clipboardClearTime", .num 30), ("autoLockTime", .num 15),
          ("darkMode", .bool false), ("showKeyPreview", .bool false)]),
        ("version", .num (-5))])) ∧
    ¬ ((1 : Int) ≤ -5) := by
  refine ⟨?_, rfl, ?_, by decide⟩
  · rw [loadVaultDataResult_backup (.obj [("keys", .arr []), ("settings", .obj [])])
      "pw" [1] [2] _ (by decide) (by decide) rfl]
    rfl
  · rw [importVaultResult_backup (.obj [("keys", .arr []), ("version", .num (-5))])
      "pw" [1] [2] (by decide) (by decide)]
    rfl

/-- C6 amended: `loadVaultData` returns the stored version unchanged —
present values, including 0 and negatives, pass through, and an absent
version stays absent — while `importVault` returns the stored version
whenever it is truthy (including negative numbers) and defaults it to 1
exactly when it is absent or falsy (0). -/
theorem claim_C6_version_handling :
    (∀ (fields : List (String × Json)) (pw : String) (salt iv : List Nat) (storage : Storage),
      (∀ b ∈ salt, b < 256) → (∀ b ∈ iv, b < 256) →
      storage.vaultEntry = some (backupBlob (.obj fields) pw salt iv) →
      ∀ fields', loadVaultDataResult pw storage = .ok (.obj fields') →
        fields'.lookup "version" = fields.lookup "version") ∧
    (∀ (payload : Json) (pw : String) (salt iv : List Nat),
      (∀ b ∈ salt, b < 256) → (∀ b ∈ iv, b < 256) →
      ∀ j, importVaultResult (backupBlob payload pw salt iv) pw = .ok j →
        jsMemberOpt j "version" =
          some (match jsMemberOpt payload "version" with
                | some v => if jsTruthy v then v else .num 1
                | none => .num 1)) := by
  constructor
  · intro fields pw salt iv storage hs hi hst fields' h
    rw [loadVaultDataResult_backup (.obj fields) pw salt iv storage hs hi hst] at h
    simp only [loadNormalize] at h
    injection h with h'
    injection h' with h''
    rw [← h'']
    exact jsSetField_lookup_ne fields "settings" "version" _ (by decide)
  · intro payload pw salt iv hs hi j h
    rw [importVaultResult_backup payload pw salt iv hs hi] at h
    exact importNormalize_ok_version payload j h

theorem claim_C6_witness :
    ([("keys", Json.arr []), ("version", Json.num 0),
      ("settings", Json.obj [("clipboardClearTime", Json.num 30), ("autoLockTime", Json.num 15),
        ("darkMode", Json.bool false), ("showKeyPreview", Json.bool false)])] :
      List (String × Json)).lookup "version" =
      ([("keys", Json.arr []), ("version", Json.num 0)] :
        List (String × Json)).lookup "version" :=
  claim_C6_version_handling.1 [("keys", .arr []), ("version", .num 0)] "pw" [1] [2]
    ⟨some (backupBlob (.obj [("keys", .arr []), ("version", .num 0)]) "pw" [1] [2]), none⟩
    (by decide) (by decide) rfl _
    (by rw [loadVaultDataResult_backup (.obj [("keys", .arr []), ("version", .num 0)])
          "pw" [1] [2] _ (by decide) (by decide) rfl]; rfl)

/-- C7 counterexample: a backup whose decrypted payload is JSON `null`
does not have a record sequence, yet `importVault` rejects it through the
TypeError path (reading `.keys` of null), not with the
`Invalid backup file format` error. -/
theorem claim_C7_counterexample :
    importVaultResult (backupBlob .null "pw" [7] [8]) "pw" = .error .nullPayload ∧
    ImportError.nullPayload ≠ ImportError.invalidBackupFormat := by
  constructor
  · rw [importVaultResult_backup .null "pw" [7] [8] (by decide) (by decide)]
    rfl
  · decide

/-- C7 amended: `importVault` decrypts the blob with the supplied
password; a decoded payload of `null` is rejected through the TypeError
path, any other decoded payload without a truthy array `keys` field is
rejected with `InvalidBackupFormat`; otherwise the normalized vault is
returned, with every settings field absent from the stored settings
filled from its default and the version defaulted by the `|| 1` rule; and
the persisted vault is never mutated, whether import succeeds or fails. -/
theorem claim_C7_import_backup (payload : Json) (pw : String) (salt iv : List Nat)
    (hs : ∀ b ∈ salt, b < 256) (hi : ∀ b ∈ iv, b < 256) :
    (payload = .null →
      importVaultResult (backupBlob payload pw salt iv) pw = .error .nullPayload) ∧
    (payload ≠ .null → jsMemberOpt payload "keys" = none →
      importVaultResult (backupBlob payload pw salt iv) pw = .error .invalidBackupFormat) ∧
    (∀ keysJ, payload ≠ .null → jsMemberOpt payload "keys" = some keysJ →
      (jsTruthy keysJ = false ∨ jsIsArray keysJ = false) →
      importVaultResult (backupBlob payload pw salt iv) pw = .error .invalidBackupFormat) ∧
    (∀ keysJ, payload ≠ .null → jsMemberOpt payload "keys" = some keysJ →
      jsTruthy keysJ = true → jsIsArray keysJ = true →
      importVaultResult (backupBlob payload pw salt iv) pw =
        .ok (.obj [("keys", keysJ),
          ("settings", .obj (jsObjMerge defaultSettingsFields
            (jsSpread (jsMemberOpt payload "settings")))),
          ("version", match jsMemberOpt payload "version" with
                      | some v => if jsTruthy v then v else .num 1
                      | none => .num 1)])) ∧
    (∀ (k : String) (dv : Json) (stored : Option Json),
      defaultSettingsFields.lookup k = some dv →
      (jsSpread stored).lookup k = none →
      (jsObjMerge defaultSettingsFields (jsSpread stored)).lookup k = some dv) ∧
    (∀ (backupData pw' : String) (storage : Storage),
      (importVault backupData pw' storage).2 = storage) := by
  refine ⟨?_, ?_, ?_, ?_, ?_, fun _ _ _ => rfl⟩
  · rintro rfl
    rw [importVaultResult_backup _ _ _ _ hs hi]
    rfl
  · intro hnull hk
    rw [importVaultResult_backup _ _ _ _ hs hi]
    simp only [importNormalize, jsMember_ne_null _ _ hnull, hk]
  · intro keysJ hnull hk hor
    rw [importVaultResult_backup _ _ _ _ hs hi]
    simp only [importNormalize, jsMember_ne_null _ _ hnull, hk]
    have hcond : ¬ jsTruthy keysJ = true ∨ ¬ jsIsArray keysJ = true := by
      rcases hor with h | h
      · exact Or.inl (by simp [h])
      · exact Or.inr (by simp [h])
    rw [if_pos hcond]
  · intro keysJ hnull hk ht ha
    rw [importVaultResult_backup _ _ _ _ hs hi]
    simp only [importNormalize, jsMember_ne_null _ _ hnull, hk]
    have hcond : ¬ (¬ jsTruthy keysJ = true ∨ ¬ jsIsArray keysJ = true) := by
      simp [ht, ha]
    rw [if_neg hcond]
  · intro k dv stored hdef hnone
    rw [jsObjMerge_lookup, hdef, hnone]
    rfl

theorem claim_C7_witness :
    (importVaultResult (backupBlob (.num 3) "pw" [1] [2]) "pw" =
      .error .invalidBackupFormat) ∧
    (importVaultResult (backupBlob (.obj [("keys", .arr [.str "rec"])]) "pw" [1] [2]) "pw" =
      .ok (.obj [("keys", .arr [.str "rec"]),
        ("settings", .obj (jsObjMerge defaultSettingsFields
          (jsSpread (jsMemberOpt (.obj [("keys", .arr [.str "rec"])]) "settings")))),
        ("version", .num 1)])) :=
  ⟨(claim_C7_import_backup (.num 3) "pw" [1] [2] (by decide) (by decide)).2.1
      (by simp) rfl,
   (claim_C7_import_backup (.obj [("keys", .arr [.str "rec"])]) "pw" [1] [2]
      (by decide) (by decide)).2.2.2.1 (.arr [.str "rec"]) (by simp) rfl rfl rfl⟩

end VaultGuard
